import Mathlib

/-!
Verification of the UltraImageViewer thumbnail pipeline, worker pool and
folder scanner against their natural-language specification.

The definitions below shallowly embed the code of `src/core/ThreadPool.cpp`,
`src/core/ImagePipeline.cpp` and the declarations in the corresponding
headers.  Machine integers are modelled as `Nat`; explicit `% 2 ^ 16` /
`% 2 ^ 32` truncations appear exactly where the C++ code casts to `uint16_t`
or computes in `uint32_t`.  Opaque collaborators (the decoder, the renderer,
the Windows compression API) are modelled as oracle functions bundled in an
environment record: the pipeline never inspects their internals, only
success/failure and reported dimensions, which is all the embedded control
flow depends on.
-/

namespace UIVProof

/-! ## Worker pool (`src/core/ThreadPool.cpp`)

Three FIFO lanes (High = 0, Normal = 1, Low = 2).  Tasks are opaque: we
model them as `Nat` identifiers.  `tryDequeue` mirrors
`ThreadPool::TryDequeue`: scan lanes in index order, pop the front of the
first non-empty one, and report the lane index.
-/

inductive TaskPriority
  | high
  | normal
  | low
deriving DecidableEq

structure PoolQueues where
  high : List Nat
  normal : List Nat
  low : List Nat
deriving DecidableEq

def PoolQueues.lane (q : PoolQueues) : TaskPriority → List Nat
  | .high => q.high
  | .normal => q.normal
  | .low => q.low

def setLane (q : PoolQueues) (p : TaskPriority) (l : List Nat) : PoolQueues :=
  match p with
  | .high => { q with high := l }
  | .normal => { q with normal := l }
  | .low => { q with low := l }

/-- `ThreadPool::Submit`: push to the back of the chosen lane. -/
def submit (t : Nat) (p : TaskPriority) (q : PoolQueues) : PoolQueues :=
  setLane q p (q.lane p ++ [t])

/-- `ThreadPool::SubmitFront`: push to the front of the chosen lane. -/
def submitFront (t : Nat) (p : TaskPriority) (q : PoolQueues) : PoolQueues :=
  setLane q p (t :: q.lane p)

/-- `ThreadPool::SubmitBatch`: append a batch to the back of the lane. -/
def submitBatch (ts : List Nat) (p : TaskPriority) (q : PoolQueues) : PoolQueues :=
  setLane q p (q.lane p ++ ts)

/-- `ThreadPool::PurgePriority`: clear one lane. -/
def purgePriority (p : TaskPriority) (q : PoolQueues) : PoolQueues :=
  setLane q p []

/-- `ThreadPool::PurgeAll`: clear every lane. -/
def purgeAll (_q : PoolQueues) : PoolQueues :=
  ⟨[], [], []⟩

/-- `ThreadPool::TryDequeue`: front of the first non-empty lane, scanning
lanes in index order `0 (High), 1 (Normal), 2 (Low)`; returns the task and
the lane index it came from. -/
def tryDequeue (q : PoolQueues) : Option ((Nat × Nat) × PoolQueues) :=
  match q.high with
  | t :: rest => some ((t, 0), { q with high := rest })
  | [] =>
    match q.normal with
    | t :: rest => some ((t, 1), { q with normal := rest })
    | [] =>
      match q.low with
      | t :: rest => some ((t, 2), { q with low := rest })
      | [] => none

def poolSize (q : PoolQueues) : Nat :=
  q.high.length + q.normal.length + q.low.length

/-- Repeated dequeuing (the order a single worker would drain the pool in,
absent new submissions), with explicit fuel. -/
def drainFuel : Nat → PoolQueues → List Nat
  | 0, _ => []
  | n + 1, q =>
    match tryDequeue q with
    | none => []
    | some ((t, _), q') => t :: drainFuel n q'

/-- Dequeue until the pool is empty. -/
def drainAll (q : PoolQueues) : List Nat :=
  drainFuel (poolSize q) q

theorem drainFuel_eq (n : Nat) : ∀ q : PoolQueues, poolSize q ≤ n →
    drainFuel n q = q.high ++ q.normal ++ q.low := by
  induction n with
  | zero =>
    intro q hq
    obtain ⟨qh, qn, ql⟩ := q
    simp only [poolSize, Nat.le_zero, Nat.add_eq_zero, List.length_eq_zero] at hq
    obtain ⟨⟨rfl, rfl⟩, rfl⟩ := hq
    rfl
  | succ n ih =>
    intro q hq
    obtain ⟨qh, qn, ql⟩ := q
    cases qh with
    | cons t rest =>
      have hsz : poolSize ⟨rest, qn, ql⟩ ≤ n := by
        simp only [poolSize, List.length_cons] at hq ⊢
        omega
      simp only [drainFuel, tryDequeue, ih _ hsz, List.cons_append]
    | nil =>
      cases qn with
      | cons t rest =>
        have hsz : poolSize ⟨[], rest, ql⟩ ≤ n := by
          simp only [poolSize, List.length_cons, List.length_nil] at hq ⊢
          omega
        simp only [drainFuel, tryDequeue, ih _ hsz, List.nil_append, List.cons_append]
      | nil =>
        cases ql with
        | cons t rest =>
          have hsz : poolSize ⟨[], [], rest⟩ ≤ n := by
            simp only [poolSize, List.length_cons, List.length_nil] at hq ⊢
            omega
          simp only [drainFuel, tryDequeue, ih _ hsz, List.nil_append]
        | nil => rfl

/-- C8: a dequeue returns the front task of the highest-priority non-empty
lane (High before Normal before Low); draining the pool yields the High lane,
then the Normal lane, then the Low lane, each in FIFO order; `Submit` places a
task behind all tasks already queued in its lane and `SubmitFront` places it
in front of them, neither touching the other lanes. -/
theorem c8_dequeue_strict_priority_fifo :
    (∀ q : PoolQueues, (tryDequeue q).map (fun r => r.1.1) = (q.high ++ q.normal ++ q.low).head?)
    ∧ (∀ q : PoolQueues, drainAll q = q.high ++ q.normal ++ q.low)
    ∧ (∀ (t : Nat) (p : TaskPriority) (q : PoolQueues),
        (submit t p q).lane p = q.lane p ++ [t]
        ∧ ∀ p2, p2 ≠ p → (submit t p q).lane p2 = q.lane p2)
    ∧ (∀ (t : Nat) (p : TaskPriority) (q : PoolQueues),
        (submitFront t p q).lane p = t :: q.lane p
        ∧ ∀ p2, p2 ≠ p → (submitFront t p q).lane p2 = q.lane p2) := by
  refine ⟨?_, ?_, ?_, ?_⟩
  · intro q
    obtain ⟨qh, qn, ql⟩ := q
    cases qh with
    | cons t rest => rfl
    | nil =>
      cases qn with
      | cons t rest => rfl
      | nil =>
        cases ql with
        | cons t rest => rfl
        | nil => rfl
  · intro q
    exact drainFuel_eq (poolSize q) q (Nat.le_refl _)
  · intro t p q
    constructor
    · cases p <;> obtain ⟨qh, qn, ql⟩ := q <;> rfl
    · intro p2 hne
      cases p <;> cases p2 <;> first
        | exact absurd rfl hne
        | rfl
  · intro t p q
    constructor
    · cases p <;> obtain ⟨qh, qn, ql⟩ := q <;> rfl
    · intro p2 hne
      cases p <;> cases p2 <;> first
        | exact absurd rfl hne
        | rfl

/-- Witness for C8 at a concrete pool state. -/
theorem c8_witness :
    ((tryDequeue ⟨[], [7, 8], [9]⟩).map (fun r => r.1.1) = some 7)
    ∧ drainAll ⟨[1], [7, 8], [9]⟩ = [1, 7, 8, 9]
    ∧ (submit 5 .normal ⟨[], [7, 8], [9]⟩).lane .normal = [7, 8, 5]
    ∧ (submit 5 .normal ⟨[], [7, 8], [9]⟩).lane .low = [9]
    ∧ (submitFront 5 .normal ⟨[], [7, 8], [9]⟩).lane .normal = [5, 7, 8] := by
  obtain ⟨h1, h2, h3, h4⟩ := c8_dequeue_strict_priority_fifo
  refine ⟨h1 ⟨[], [7, 8], [9]⟩, h2 ⟨[1], [7, 8], [9]⟩, (h3 5 .normal ⟨[], [7, 8], [9]⟩).1, ?_, (h4 5 .normal ⟨[], [7, 8], [9]⟩).1⟩
  exact (h3 5 .normal ⟨[], [7, 8], [9]⟩).2 .low (by decide)

/-! ## Folder scanner (`ImagePipeline::ScanFolders`, ImagePipeline.cpp 194-363)

The recursive directory iterator is modelled as an input stream of entries
per top-level folder (`ScanFolder.entries`): the walk order is fixed by the
OS, the per-entry processing (lines 270-341) is what the code adds and what
is embedded here.  Directory entries are consumed without output (the
skip-list only prunes recursion); non-regular non-directory entries produce
nothing in the code and are omitted from the stream.  `attrs = none` models
`GetFileAttributesExW` failing.  The cooperative cancellation flag is
modelled by the step index `cancelAt` at which it becomes (and stays) true;
one step is consumed per stream entry, and the code checks the flag at each
top-level folder, before each entry, and once more before the final sort.
-/

/-- A wide string (`std::wstring`): a list of UTF-16 code units. -/
abbrev WStr := List Nat

/-- Embed a Lean string literal as a wide string. -/
def wstr (s : String) : WStr :=
  s.data.map Char.toNat

/-- `::towlower` on one code unit (ASCII letter range, as exercised by the
paths in this development). -/
def towlower (c : Nat) : Nat :=
  if 65 ≤ c ∧ c ≤ 90 then c + 32 else c

/-- `std::transform(..., ::towlower)` applied to a path or extension. -/
def lowerW (s : WStr) : WStr :=
  s.map towlower

/-- `std::wstring::operator<`: lexicographic comparison of code units. -/
def wltb : WStr → WStr → Bool
  | [], [] => false
  | [], _ :: _ => true
  | _ :: _, [] => false
  | a :: as, b :: bs =>
    if a < b then true
    else if b < a then false
    else wltb as bs

structure FileAttrs where
  size : Nat
  year : Nat
  month : Nat
deriving DecidableEq

structure FsEntry where
  isDir : Bool
  path : WStr
  name : WStr
  ext : WStr
  attrs : Option FileAttrs
deriving DecidableEq

structure ScannedImage where
  path : WStr
  name : WStr
  sourceFolder : WStr
  year : Nat
  month : Nat
deriving DecidableEq

structure ScanFolder where
  dir : WStr
  entries : List FsEntry
deriving DecidableEq

def supportedExts : List WStr :=
  [wstr ".jpg", wstr ".jpeg", wstr ".png", wstr ".bmp", wstr ".gif",
   wstr ".tif", wstr ".tiff", wstr ".webp", wstr ".ico", wstr ".jxr",
   wstr ".heic", wstr ".heif", wstr ".avif"]

def kMinImageSize : Nat := 100 * 1024

/-- Processing of one regular-file/directory stream entry
(ImagePipeline.cpp lines 272-340): extension filter, case-insensitive
dedup against `seen`, attribute read, minimum-size filter (only when the
attribute read succeeded), date classification (year/month stay 0 when the
attribute read failed). -/
def scanStep (dir : WStr) (seen : List WStr) (acc : List ScannedImage)
    (e : FsEntry) : List WStr × List ScannedImage :=
  if e.isDir then (seen, acc)
  else if lowerW e.ext ∈ supportedExts then
    let lowerPath := lowerW e.path
    if lowerPath ∈ seen then (seen, acc)
    else
      let seen' := lowerPath :: seen
      match e.attrs with
      | some a =>
        if a.size < kMinImageSize then (seen', acc)
        else (seen', acc ++ [⟨e.path, e.name, dir, a.year, a.month⟩])
      | none => (seen', acc ++ [⟨e.path, e.name, dir, 0, 0⟩])
  else (seen, acc)

/-- State of the cooperative cancellation flag after `s` processing steps. -/
def cancelled (cancelAt : Option Nat) (s : Nat) : Bool :=
  match cancelAt with
  | none => false
  | some c => c ≤ s

/-- Inner loop of `ScanFolders` over one folder's entry stream, with the
per-entry cancellation check (line 270). -/
def scanEntriesLoop (cancelAt : Option Nat) (dir : WStr) :
    List FsEntry → Nat → List WStr → List ScannedImage →
    Nat × List WStr × List ScannedImage
  | [], s, seen, acc => (s, seen, acc)
  | e :: rest, s, seen, acc =>
    if cancelled cancelAt s then (s, seen, acc)
    else
      let r := scanStep dir seen acc e
      scanEntriesLoop cancelAt dir rest (s + 1) r.1 r.2

/-- Outer loop of `ScanFolders` over the top-level folders, with the
per-folder cancellation check (line 259). -/
def scanFoldersLoop (cancelAt : Option Nat) :
    List ScanFolder → Nat → List WStr → List ScannedImage →
    Nat × List WStr × List ScannedImage
  | [], s, seen, acc => (s, seen, acc)
  | f :: rest, s, seen, acc =>
    if cancelled cancelAt s then (s, seen, acc)
    else
      let r := scanEntriesLoop cancelAt f.dir f.entries s seen acc
      scanFoldersLoop cancelAt rest r.1 r.2.1 r.2.2

/-- The date comparator of the final sort (lines 352-357): year descending,
then month descending, then filename ascending. -/
def scanLT (a b : ScannedImage) : Prop :=
  if a.year ≠ b.year then b.year < a.year
  else if a.month ≠ b.month then b.month < a.month
  else wltb a.name b.name = true

instance scanLT_dec : ∀ a b, Decidable (scanLT a b) := fun a b => by
  unfold scanLT
  infer_instance

/-- The non-strict order induced by the sort comparator: `a` may legally
appear before `b` in the sorted output. -/
def scanLE (a b : ScannedImage) : Prop :=
  ¬ scanLT b a

instance scanLE_dec : DecidableRel scanLE := fun a b => by
  unfold scanLE
  infer_instance

/-- `std::sort` with the date comparator: some permutation of the input
that is sorted with respect to `scanLE`. -/
def sortScanned (l : List ScannedImage) : List ScannedImage :=
  List.insertionSort scanLE l

/-- `ImagePipeline::ScanFolders`: walk the folders, then — unless the
cancellation flag is up (line 349) — apply the final date sort. -/
def scanFolders (folders : List ScanFolder) (cancelAt : Option Nat) :
    List ScannedImage :=
  let r := scanFoldersLoop cancelAt folders 0 [] []
  if cancelled cancelAt r.1 then r.2.2
  else sortScanned r.2.2

theorem wltb_asymm : ∀ a b : WStr, wltb a b = true → wltb b a = false := by
  intro a
  induction a with
  | nil =>
    intro b h
    cases b with
    | nil => simp [wltb] at h
    | cons x xs => rfl
  | cons x xs ih =>
    intro b h
    cases b with
    | nil => simp [wltb] at h
    | cons y ys =>
      simp only [wltb] at h ⊢
      by_cases hxy : x < y
      · rw [if_neg (by omega), if_pos hxy]
      · rw [if_neg hxy] at h
        by_cases hyx : y < x
        · rw [if_pos hyx] at h
          exact absurd h (by simp)
        · rw [if_neg hyx] at h
          rw [if_neg (by omega), if_neg (by omega)]
          exact ih ys h

theorem wltb_false_trans : ∀ a b c : WStr,
    wltb b a = false → wltb c b = false → wltb c a = false := by
  intro a
  induction a with
  | nil =>
    intro b c _ _
    cases c with
    | nil => rfl
    | cons z zs => rfl
  | cons x xs ih =>
    intro b c h1 h2
    cases b with
    | nil => simp [wltb] at h1
    | cons y ys =>
      cases c with
      | nil => simp [wltb] at h2
      | cons z zs =>
        simp only [wltb] at h1 h2 ⊢
        by_cases hyx : y < x
        · rw [if_pos hyx] at h1
          exact absurd h1 (by simp)
        · rw [if_neg hyx] at h1
          by_cases hzy : z < y
          · rw [if_pos hzy] at h2
            exact absurd h2 (by simp)
          · rw [if_neg hzy] at h2
            by_cases hxy : x < y
            · rw [if_neg (by omega), if_pos (by omega)]
            · rw [if_neg hxy] at h1
              by_cases hyz : y < z
              · rw [if_neg (by omega), if_pos (by omega)]
              · rw [if_neg hyz] at h2
                rw [if_neg (by omega), if_neg (by omega)]
                exact ih ys zs h1 h2

theorem scanLE_iff (a b : ScannedImage) :
    scanLE a b ↔
      b.year < a.year
      ∨ (b.year = a.year
          ∧ (b.month < a.month
              ∨ (b.month = a.month ∧ wltb b.name a.name = false))) := by
  unfold scanLE scanLT
  by_cases hy : b.year = a.year
  · rw [if_neg (by omega)]
    by_cases hm : b.month = a.month
    · rw [if_neg (by omega)]
      constructor
      · intro h
        exact Or.inr ⟨hy, Or.inr ⟨hm, by simpa using h⟩⟩
      · intro h
        rcases h with h1 | ⟨_, h2 | ⟨_, hn⟩⟩
        · omega
        · omega
        · simp [hn]
    · rw [if_pos hm]
      constructor
      · intro h
        exact Or.inr ⟨hy, Or.inl (by omega)⟩
      · intro h
        rcases h with h1 | ⟨_, h2 | ⟨h2, _⟩⟩
        · omega
        · omega
        · omega
  · rw [if_pos hy]
    constructor
    · intro h
      exact Or.inl (by omega)
    · intro h
      rcases h with h1 | ⟨h2, _⟩
      · omega
      · omega

theorem scanLE_total_thm : ∀ a b, scanLE a b ∨ scanLE b a := by
  intro a b
  rw [scanLE_iff, scanLE_iff]
  rcases Nat.lt_trichotomy a.year b.year with h | h | h
  · exact Or.inr (Or.inl h)
  · rcases Nat.lt_trichotomy a.month b.month with hm | hm | hm
    · exact Or.inr (Or.inr ⟨by omega, Or.inl hm⟩)
    · cases hb : wltb b.name a.name with
      | false => exact Or.inl (Or.inr ⟨by omega, Or.inr ⟨by omega, rfl⟩⟩)
      | true =>
        exact Or.inr (Or.inr ⟨by omega, Or.inr ⟨by omega, wltb_asymm _ _ hb⟩⟩)
    · exact Or.inl (Or.inr ⟨by omega, Or.inl hm⟩)
  · exact Or.inl (Or.inl h)

theorem scanLE_trans_thm : ∀ a b c, scanLE a b → scanLE b c → scanLE a c := by
  intro a b c hab hbc
  rw [scanLE_iff] at hab hbc ⊢
  rcases hab with h1 | ⟨h1, h1m⟩
  · rcases hbc with h2 | ⟨h2, _⟩
    · exact Or.inl (by omega)
    · exact Or.inl (by omega)
  · rcases hbc with h2 | ⟨h2, h2m⟩
    · exact Or.inl (by omega)
    · rcases h1m with m1 | ⟨m1, n1⟩
      · rcases h2m with m2 | ⟨m2, _⟩
        · exact Or.inr ⟨by omega, Or.inl (by omega)⟩
        · exact Or.inr ⟨by omega, Or.inl (by omega)⟩
      · rcases h2m with m2 | ⟨m2, n2⟩
        · exact Or.inr ⟨by omega, Or.inl (by omega)⟩
        · exact Or.inr ⟨by omega, Or.inr ⟨by omega, wltb_false_trans _ _ _ n1 n2⟩⟩

instance : IsTotal ScannedImage scanLE :=
  ⟨scanLE_total_thm⟩

instance : IsTrans ScannedImage scanLE :=
  ⟨scanLE_trans_thm⟩

/-- The three-file folder of the concrete C9 scenario: `a.jpg` five years
old, `b.jpg` two years old, `c.jpg` in the same month as `b.jpg`. -/
def demo9 : List ScanFolder :=
  [⟨wstr "c:/pics",
    [⟨false, wstr "c:/pics/a.jpg", wstr "a.jpg", wstr ".jpg", some ⟨200000, 2021, 5⟩⟩,
     ⟨false, wstr "c:/pics/b.jpg", wstr "b.jpg", wstr ".jpg", some ⟨200000, 2024, 3⟩⟩,
     ⟨false, wstr "c:/pics/c.jpg", wstr "c.jpg", wstr ".jpg", some ⟨200000, 2024, 3⟩⟩]⟩]

/-- C9: an uncancelled `ScanFolders` returns a list sorted by year
descending, then month descending, then filename ascending; on the concrete
three-file folder, grouping by (year, month) yields exactly two sections in
newest-first order, `b.jpg` and `c.jpg` in the newer one and `a.jpg` alone
in the older. -/
theorem c9_sorted_date_desc_name_asc :
    (∀ folders : List ScanFolder, List.Sorted scanLE (scanFolders folders none))
    ∧ (scanFolders demo9 none).map (fun i => (i.name, i.year, i.month))
        = [(wstr "b.jpg", 2024, 3), (wstr "c.jpg", 2024, 3), (wstr "a.jpg", 2021, 5)]
    ∧ ((scanFolders demo9 none).splitBy
          (fun x y => x.year == y.year && x.month == y.month)).map
        (fun sec => sec.map ScannedImage.name) = [[wstr "b.jpg", wstr "c.jpg"], [wstr "a.jpg"]] := by
  refine ⟨?_, by decide, by decide⟩
  intro folders
  unfold scanFolders
  simp only [cancelled, Bool.false_eq_true, if_false]
  exact List.sorted_insertionSort scanLE _

/-- C10: a supported, not-yet-seen regular file whose attribute read fails
is still included, with year 0 and month 0, and the 100KB minimum-size
filter is not applied to it; the size filter rejects a file only when its
attributes were read successfully and report a size below the threshold. -/
theorem c10_attr_failure_included :
    (∀ dir seen acc (e : FsEntry), e.isDir = false →
      lowerW e.ext ∈ supportedExts →
      lowerW e.path ∉ seen →
      e.attrs = none →
      scanStep dir seen acc e
        = (lowerW e.path :: seen, acc ++ [⟨e.path, e.name, dir, 0, 0⟩]))
    ∧ (∀ dir seen acc (e : FsEntry) a, e.isDir = false →
      lowerW e.ext ∈ supportedExts →
      lowerW e.path ∉ seen →
      e.attrs = some a → a.size < kMinImageSize →
      scanStep dir seen acc e = (lowerW e.path :: seen, acc))
    ∧ (∀ dir seen acc (e : FsEntry) a, e.isDir = false →
      lowerW e.ext ∈ supportedExts →
      lowerW e.path ∉ seen →
      e.attrs = some a → kMinImageSize ≤ a.size →
      scanStep dir seen acc e
        = (lowerW e.path :: seen,
           acc ++ [⟨e.path, e.name, dir, a.year, a.month⟩])) := by
  refine ⟨?_, ?_, ?_⟩
  · intro dir seen acc e hdir hext hseen hattrs
    simp [scanStep, hdir, hext, hseen, hattrs]
  · intro dir seen acc e a hdir hext hseen hattrs hsize
    simp [scanStep, hdir, hext, hseen, hattrs, hsize]
  · intro dir seen acc e a hdir hext hseen hattrs hsize
    simp [scanStep, hdir, hext, hseen, hattrs, Nat.not_lt_of_le hsize]

/-- Witness for C10: a concrete `tiny.jpg` whose attribute read failed is
included with year 0, month 0, and its path is recorded as seen. -/
theorem c10_witness :
    scanStep (wstr "c:/pics") [] []
        ⟨false, wstr "c:/pics/tiny.jpg", wstr "tiny.jpg", wstr ".jpg", none⟩
      = (lowerW (wstr "c:/pics/tiny.jpg") :: [],
         [⟨wstr "c:/pics/tiny.jpg", wstr "tiny.jpg", wstr "c:/pics", 0, 0⟩]) := by
  exact c10_attr_failure_included.1 (wstr "c:/pics") [] []
    ⟨false, wstr "c:/pics/tiny.jpg", wstr "tiny.jpg", wstr ".jpg", none⟩
    rfl (by decide) (by decide) rfl

/-! ### Accumulator and cancellation lemmas for the scanner -/

theorem scanStep_acc (dir : WStr) (seen : List WStr) (acc : List ScannedImage)
    (e : FsEntry) :
    scanStep dir seen acc e
      = ((scanStep dir seen [] e).1, acc ++ (scanStep dir seen [] e).2) := by
  rcases e with ⟨d, p, n, x, a⟩
  cases d <;> cases a <;> simp only [scanStep] <;> split_ifs <;> simp

theorem scanEntriesLoop_acc (ca : Option Nat) (dir : WStr) :
    ∀ (entries : List FsEntry) (s : Nat) (seen : List WStr)
      (acc : List ScannedImage),
      scanEntriesLoop ca dir entries s seen acc
        = ((scanEntriesLoop ca dir entries s seen []).1,
           (scanEntriesLoop ca dir entries s seen []).2.1,
           acc ++ (scanEntriesLoop ca dir entries s seen []).2.2) := by
  intro entries
  induction entries with
  | nil =>
    intro s seen acc
    simp [scanEntriesLoop]
  | cons e rest ih =>
    intro s seen acc
    simp only [scanEntriesLoop]
    by_cases hc : cancelled ca s = true
    · simp [hc]
    · simp only [hc, if_false]
      rw [scanStep_acc dir seen acc e]
      rw [ih (s + 1) (scanStep dir seen [] e).1 (acc ++ (scanStep dir seen [] e).2)]
      rw [ih (s + 1) (scanStep dir seen [] e).1 (scanStep dir seen [] e).2]
      simp

theorem scanFoldersLoop_acc (ca : Option Nat) :
    ∀ (folders : List ScanFolder) (s : Nat) (seen : List WStr)
      (acc : List ScannedImage),
      scanFoldersLoop ca folders s seen acc
        = ((scanFoldersLoop ca folders s seen []).1,
           (scanFoldersLoop ca folders s seen []).2.1,
           acc ++ (scanFoldersLoop ca folders s seen []).2.2) := by
  intro folders
  induction folders with
  | nil =>
    intro s seen acc
    simp [scanFoldersLoop]
  | cons f rest ih =>
    intro s seen acc
    simp only [scanFoldersLoop]
    by_cases hc : cancelled ca s = true
    · simp [hc]
    · simp only [hc, if_false]
      rw [scanEntriesLoop_acc ca f.dir f.entries s seen acc]
      rw [scanEntriesLoop_acc ca f.dir f.entries s seen []]
      rw [ih (scanEntriesLoop ca f.dir f.entries s seen []).1
            (scanEntriesLoop ca f.dir f.entries s seen []).2.1
            (acc ++ ([] ++ (scanEntriesLoop ca f.dir f.entries s seen []).2.2))]
      rw [ih (scanEntriesLoop ca f.dir f.entries s seen []).1
            (scanEntriesLoop ca f.dir f.entries s seen []).2.1
            ([] ++ (scanEntriesLoop ca f.dir f.entries s seen []).2.2)]
      simp

theorem scanFoldersLoop_stop (c : Nat) (folders : List ScanFolder) (s : Nat)
    (seen : List WStr) (acc : List ScannedImage) (h : c ≤ s) :
    scanFoldersLoop (some c) folders s seen acc = (s, seen, acc) := by
  cases folders with
  | nil => rfl
  | cons f rest => simp [scanFoldersLoop, cancelled, h]

theorem scanEntriesLoop_cancel (c : Nat) (dir : WStr) :
    ∀ (entries : List FsEntry) (s : Nat) (seen : List WStr)
      (acc : List ScannedImage),
      scanEntriesLoop (some c) dir entries s seen acc
          = scanEntriesLoop none dir entries s seen acc
      ∨ (c ≤ (scanEntriesLoop (some c) dir entries s seen acc).1
          ∧ ∃ t, (scanEntriesLoop none dir entries s seen acc).2.2
              = (scanEntriesLoop (some c) dir entries s seen acc).2.2 ++ t) := by
  intro entries
  induction entries with
  | nil =>
    intro s seen acc
    exact Or.inl rfl
  | cons e rest ih =>
    intro s seen acc
    by_cases hc : c ≤ s
    · right
      have hstop : scanEntriesLoop (some c) dir (e :: rest) s seen acc
          = (s, seen, acc) := by
        simp [scanEntriesLoop, cancelled, hc]
      rw [hstop]
      refine ⟨hc, (scanEntriesLoop none dir (e :: rest) s seen []).2.2, ?_⟩
      rw [scanEntriesLoop_acc none dir (e :: rest) s seen acc]
    · have h1 : scanEntriesLoop (some c) dir (e :: rest) s seen acc
          = scanEntriesLoop (some c) dir rest (s + 1)
              (scanStep dir seen acc e).1 (scanStep dir seen acc e).2 := by
        simp [scanEntriesLoop, cancelled, hc]
      have h2 : scanEntriesLoop none dir (e :: rest) s seen acc
          = scanEntriesLoop none dir rest (s + 1)
              (scanStep dir seen acc e).1 (scanStep dir seen acc e).2 := by
        simp [scanEntriesLoop, cancelled]
      rw [h1, h2]
      exact ih (s + 1) (scanStep dir seen acc e).1 (scanStep dir seen acc e).2

theorem scanFoldersLoop_cancel (c : Nat) :
    ∀ (folders : List ScanFolder) (s : Nat) (seen : List WStr)
      (acc : List ScannedImage),
      scanFoldersLoop (some c) folders s seen acc
          = scanFoldersLoop none folders s seen acc
      ∨ (c ≤ (scanFoldersLoop (some c) folders s seen acc).1
          ∧ ∃ t, (scanFoldersLoop none folders s seen acc).2.2
              = (scanFoldersLoop (some c) folders s seen acc).2.2 ++ t) := by
  intro folders
  induction folders with
  | nil =>
    intro s seen acc
    exact Or.inl rfl
  | cons f rest ih =>
    intro s seen acc
    by_cases hc : c ≤ s
    · right
      have hstop : scanFoldersLoop (some c) (f :: rest) s seen acc
          = (s, seen, acc) := scanFoldersLoop_stop c (f :: rest) s seen acc hc
      rw [hstop]
      refine ⟨hc, (scanFoldersLoop none (f :: rest) s seen []).2.2, ?_⟩
      rw [scanFoldersLoop_acc none (f :: rest) s seen acc]
    · have h1 : scanFoldersLoop (some c) (f :: rest) s seen acc
          = scanFoldersLoop (some c) rest
              (scanEntriesLoop (some c) f.dir f.entries s seen acc).1
              (scanEntriesLoop (some c) f.dir f.entries s seen acc).2.1
              (scanEntriesLoop (some c) f.dir f.entries s seen acc).2.2 := by
        simp [scanFoldersLoop, cancelled, hc]
      have h2 : scanFoldersLoop none (f :: rest) s seen acc
          = scanFoldersLoop none rest
              (scanEntriesLoop none f.dir f.entries s seen acc).1
              (scanEntriesLoop none f.dir f.entries s seen acc).2.1
              (scanEntriesLoop none f.dir f.entries s seen acc).2.2 := by
        simp [scanFoldersLoop, cancelled]
      rw [h1, h2]
      rcases scanEntriesLoop_cancel c f.dir f.entries s seen acc with heq | ⟨hle, t1, ht1⟩
      · rw [heq]
        exact ih _ _ _
      · right
        have hstop2 : scanFoldersLoop (some c) rest
            (scanEntriesLoop (some c) f.dir f.entries s seen acc).1
            (scanEntriesLoop (some c) f.dir f.entries s seen acc).2.1
            (scanEntriesLoop (some c) f.dir f.entries s seen acc).2.2
            = ((scanEntriesLoop (some c) f.dir f.entries s seen acc).1,
               (scanEntriesLoop (some c) f.dir f.entries s seen acc).2.1,
               (scanEntriesLoop (some c) f.dir f.entries s seen acc).2.2) :=
          scanFoldersLoop_stop c rest _ _ _ hle
        rw [hstop2]
        refine ⟨hle, ?_⟩
        rw [scanFoldersLoop_acc none rest
              (scanEntriesLoop none f.dir f.entries s seen acc).1
              (scanEntriesLoop none f.dir f.entries s seen acc).2.1
              (scanEntriesLoop none f.dir f.entries s seen acc).2.2]
        refine ⟨t1 ++ (scanFoldersLoop none rest
            (scanEntriesLoop none f.dir f.entries s seen acc).1
            (scanEntriesLoop none f.dir f.entries s seen acc).2.1 []).2.2, ?_⟩
        simp only [ht1, List.append_assoc]

/-- C7 (amended): the list returned by a cancelled `ScanFolders` run is a
subset — not necessarily strict — of the uncancelled run's result over the
same tree, and whenever the flag is observed up at the final check the
accumulated list is returned with the final date sort skipped. -/
theorem c7_cancel_subset_and_unsorted :
    (∀ (folders : List ScanFolder) (c : Nat) (x : ScannedImage),
      x ∈ scanFolders folders (some c) → x ∈ scanFolders folders none)
    ∧ (∀ (folders : List ScanFolder) (c : Nat),
      cancelled (some c) (scanFoldersLoop (some c) folders 0 [] []).1 = true →
      scanFolders folders (some c)
        = (scanFoldersLoop (some c) folders 0 [] []).2.2) := by
  constructor
  · intro folders c x hx
    rcases scanFoldersLoop_cancel c folders 0 [] [] with heq | ⟨hle, t, ht⟩
    · unfold scanFolders at hx ⊢
      rw [heq] at hx
      simp only [cancelled, Bool.false_eq_true, if_false]
      by_cases hfin : cancelled (some c) (scanFoldersLoop none folders 0 [] []).1 = true
      · rw [if_pos hfin] at hx
        exact ((List.perm_insertionSort scanLE _).mem_iff).mpr hx
      · rw [if_neg hfin] at hx
        exact hx
    · unfold scanFolders at hx ⊢
      have hfin : cancelled (some c) (scanFoldersLoop (some c) folders 0 [] []).1 = true := by
        simp [cancelled, hle]
      rw [if_pos hfin] at hx
      simp only [cancelled, Bool.false_eq_true, if_false]
      refine ((List.perm_insertionSort scanLE _).mem_iff).mpr ?_
      rw [ht]
      exact List.mem_append_left t hx
  · intro folders c hfin
    unfold scanFolders
    rw [if_pos hfin]

/-- The two-file tree used by the C7 witness. -/
def demo7w : List ScanFolder :=
  [⟨wstr "c:/pics",
    [⟨false, wstr "c:/pics/a.jpg", wstr "a.jpg", wstr ".jpg", some ⟨200000, 2021, 5⟩⟩,
     ⟨false, wstr "c:/pics/b.jpg", wstr "b.jpg", wstr ".jpg", some ⟨200000, 2024, 3⟩⟩]⟩]

/-- Witness for C7 at a concrete folder and cancellation point: cancelling
before the second of two files returns exactly the first file, which the
full scan also contains, and the cancelled return value is the unsorted
accumulated list. -/
theorem c7_witness :
    ((wstr "c:/pics/a.jpg") ∈ (scanFolders demo7w none).map ScannedImage.path)
    ∧ scanFolders demo7w (some 1)
        = (scanFoldersLoop (some 1) demo7w 0 [] []).2.2 := by
  constructor
  · have hsub := c7_cancel_subset_and_unsorted.1 demo7w
      1 ⟨wstr "c:/pics/a.jpg", wstr "a.jpg", wstr "c:/pics", 2021, 5⟩ (by decide)
    exact List.mem_map_of_mem ScannedImage.path hsub
  · exact c7_cancel_subset_and_unsorted.2 demo7w 1 (by decide)

/-- The single-file tree of the C7 counterexample. -/
def demo7 : List ScanFolder :=
  [⟨wstr "c:/pics",
    [⟨false, wstr "c:/pics/a.jpg", wstr "a.jpg", wstr ".jpg", some ⟨200000, 2024, 3⟩⟩]⟩]

/-- C7 counterexample: raising the cancellation flag right after the last
entry was processed (point 1 of a 1-entry tree) makes the cancelled run
return exactly the full scan's list — so the cancelled result is not a
strict subset of the uncancelled result at every cancellation point. -/
theorem c7_counterexample :
    scanFolders demo7 (some 1) = scanFolders demo7 none
    ∧ scanFolders demo7 none ≠ [] := by
  constructor
  · decide
  · decide

/-! ### Case-insensitive dedup (C6) -/

theorem scanStep_inv (dir : WStr) (seen : List WStr) (acc : List ScannedImage)
    (e : FsEntry)
    (h1 : (acc.map (fun i => lowerW i.path)).Nodup)
    (h2 : ∀ i ∈ acc, lowerW i.path ∈ seen) :
    ((scanStep dir seen acc e).2.map (fun i => lowerW i.path)).Nodup
    ∧ (∀ i ∈ (scanStep dir seen acc e).2,
        lowerW i.path ∈ (scanStep dir seen acc e).1)
    ∧ ∀ x ∈ seen, x ∈ (scanStep dir seen acc e).1 := by
  rcases e with ⟨d, p, n, x, a⟩
  cases d <;> cases a <;> simp only [scanStep] <;> split_ifs <;>
    first
    | exact ⟨h1, h2, fun _ hx => hx⟩
    | · rename_i hext hdup hsize
        refine ⟨?_, ?_, ?_⟩
        · simp only [List.map_append, List.map_cons, List.map_nil]
          rw [List.nodup_append]
          refine ⟨h1, List.nodup_singleton _, ?_⟩
          intro y hy hy2
          simp only [List.mem_singleton] at hy2
          subst hy2
          obtain ⟨i, hi, hip⟩ := List.mem_map.mp hy
          exact hdup (hip ▸ h2 i hi)
        · intro i hi
          rcases List.mem_append.mp hi with hi | hi
          · exact List.mem_cons_of_mem _ (h2 i hi)
          · simp only [List.mem_singleton] at hi
            subst hi
            exact List.mem_cons_self _ _
        · intro y hy
          exact List.mem_cons_of_mem _ hy
    | · rename_i hext hdup
        refine ⟨h1, ?_, ?_⟩
        · intro i hi
          exact List.mem_cons_of_mem _ (h2 i hi)
        · intro y hy
          exact List.mem_cons_of_mem _ hy
    | · rename_i hext hdup
        refine ⟨?_, ?_, ?_⟩
        · simp only [List.map_append, List.map_cons, List.map_nil]
          rw [List.nodup_append]
          refine ⟨h1, List.nodup_singleton _, ?_⟩
          intro y hy hy2
          simp only [List.mem_singleton] at hy2
          subst hy2
          obtain ⟨i, hi, hip⟩ := List.mem_map.mp hy
          exact hdup (hip ▸ h2 i hi)
        · intro i hi
          rcases List.mem_append.mp hi with hi | hi
          · exact List.mem_cons_of_mem _ (h2 i hi)
          · simp only [List.mem_singleton] at hi
            subst hi
            exact List.mem_cons_self _ _
        · intro y hy
          exact List.mem_cons_of_mem _ hy

theorem scanEntriesLoop_inv (ca : Option Nat) (dir : WStr) :
    ∀ (entries : List FsEntry) (s : Nat) (seen : List WStr)
      (acc : List ScannedImage),
      (acc.map (fun i => lowerW i.path)).Nodup →
      (∀ i ∈ acc, lowerW i.path ∈ seen) →
      ((scanEntriesLoop ca dir entries s seen acc).2.2.map
          (fun i => lowerW i.path)).Nodup
      ∧ ∀ i ∈ (scanEntriesLoop ca dir entries s seen acc).2.2,
          lowerW i.path ∈ (scanEntriesLoop ca dir entries s seen acc).2.1 := by
  intro entries
  induction entries with
  | nil =>
    intro s seen acc h1 h2
    exact ⟨h1, h2⟩
  | cons e rest ih =>
    intro s seen acc h1 h2
    simp only [scanEntriesLoop]
    by_cases hc : cancelled ca s = true
    · simp only [hc, if_true]
      exact ⟨h1, h2⟩
    · simp only [hc, if_false]
      obtain ⟨g1, g2, _⟩ := scanStep_inv dir seen acc e h1 h2
      exact ih (s + 1) (scanStep dir seen acc e).1 (scanStep dir seen acc e).2 g1 g2

theorem scanEntriesLoop_seen (ca : Option Nat) (dir : WStr) :
    ∀ (entries : List FsEntry) (s : Nat) (seen : List WStr)
      (acc : List ScannedImage),
      ∀ x ∈ seen, x ∈ (scanEntriesLoop ca dir entries s seen acc).2.1 := by
  intro entries
  induction entries with
  | nil =>
    intro s seen acc x hx
    exact hx
  | cons e rest ih =>
    intro s seen acc x hx
    simp only [scanEntriesLoop]
    by_cases hc : cancelled ca s = true
    · simp only [hc, if_true]
      exact hx
    · simp only [hc, if_false]
      refine ih (s + 1) (scanStep dir seen acc e).1 (scanStep dir seen acc e).2 x ?_
      rcases e with ⟨d, p, n, xe, a⟩
      cases d <;> cases a <;> simp only [scanStep] <;> split_ifs <;>
        first
        | exact hx
        | exact List.mem_cons_of_mem _ hx

theorem scanFoldersLoop_inv (ca : Option Nat) :
    ∀ (folders : List ScanFolder) (s : Nat) (seen : List WStr)
      (acc : List ScannedImage),
      (acc.map (fun i => lowerW i.path)).Nodup →
      (∀ i ∈ acc, lowerW i.path ∈ seen) →
      ((scanFoldersLoop ca folders s seen acc).2.2.map
          (fun i => lowerW i.path)).Nodup := by
  intro folders
  induction folders with
  | nil =>
    intro s seen acc h1 _
    exact h1
  | cons f rest ih =>
    intro s seen acc h1 h2
    simp only [scanFoldersLoop]
    by_cases hc : cancelled ca s = true
    · simp only [hc, if_true]
      exact h1
    · simp only [hc, if_false]
      obtain ⟨g1, g2⟩ := scanEntriesLoop_inv ca f.dir f.entries s seen acc h1 h2
      exact ih _ _ _ g1 g2

/-- C6 (amended): `ScanFolders` deduplicates by case-insensitive textual
absolute path — the result never contains two entries whose lowercased path
strings are equal, whether cancelled or not. -/
theorem c6_textual_dedup_nodup :
    ∀ (folders : List ScanFolder) (cancelAt : Option Nat),
      ((scanFolders folders cancelAt).map (fun i => lowerW i.path)).Nodup := by
  intro folders cancelAt
  have hbase := scanFoldersLoop_inv cancelAt folders 0 [] []
    (by simp) (by simp)
  unfold scanFolders
  by_cases hfin : cancelled cancelAt (scanFoldersLoop cancelAt folders 0 [] []).1 = true
  · rw [if_pos hfin]
    exact hbase
  · rw [if_neg hfin]
    unfold sortScanned
    have hperm := (List.perm_insertionSort scanLE
      (scanFoldersLoop cancelAt folders 0 [] []).2.2).map (fun i => lowerW i.path)
    exact hperm.nodup_iff.mpr hbase

/-- The junction-resolution function of the C6 counterexample: the
filesystem resolves `c:/link` to `c:/real`, so both scanned paths denote
the same canonical file. -/
def canonDemo : WStr → WStr :=
  fun s => if s = wstr "c:/link/x.jpg" then wstr "c:/real/x.jpg" else s

/-- The two-root scan of the C6 counterexample: the same file reached once
through its real path and once through a junction. -/
def demo6 : List ScanFolder :=
  [⟨wstr "c:/real",
    [⟨false, wstr "c:/real/x.jpg", wstr "x.jpg", wstr ".jpg", some ⟨200000, 2024, 3⟩⟩]⟩,
   ⟨wstr "c:/link",
    [⟨false, wstr "c:/link/x.jpg", wstr "x.jpg", wstr ".jpg", some ⟨200000, 2024, 3⟩⟩]⟩]

/-- C6 counterexample: the dedup key is the textual lowercased path, not the
canonical path — a folder and a junction into it yield two result entries
whose canonical paths coincide. -/
theorem c6_counterexample :
    (scanFolders demo6 none).map (fun i => canonDemo (lowerW i.path))
      = [wstr "c:/real/x.jpg", wstr "c:/real/x.jpg"]
    ∧ ¬ ((scanFolders demo6 none).map (fun i => canonDemo (lowerW i.path))).Nodup := by
  constructor
  · decide
  · decide

/-! ## Thumbnail pipeline (`src/core/ImagePipeline.cpp`)

State of the pipeline: the four cache tiers, the pending-request table, the
visible set, the generation counter, the ready queue, the save buffer, the
per-frame synchronous budget, and the worker pool's not-yet-executed decode
tasks.  `clock` models `std::chrono::steady_clock::now()`: it advances at
every sample and stamps `lastAccess`.  All maps are association lists with
pairwise-distinct keys (`std::unordered_map` iteration order is
unspecified, so list order carries no meaning; eviction sorts by access
time before acting).  Byte counters are `Nat` (a 64-bit `size_t` cannot
overflow on real allocations); `uint16_t` casts and `uint32_t` products
carry explicit `% 2 ^ 16` / `% 2 ^ 32`.  Opaque collaborators live in
`PipelineEnv`: `decode` is the `GenerateThumbnail`-then-`Decode` fallback
chain returning the produced dimensions, `createOk` is
`Direct2DRenderer::CreateBitmap` success, `compressSize` is `CompressPixels`
(result size on success), `decompressOk` is `DecompressPixels`.
-/

def alookup {α : Type} (k : WStr) : List (WStr × α) → Option α
  | [] => none
  | kv :: rest => if kv.1 = k then some kv.2 else alookup k rest

def aerase {α : Type} (k : WStr) : List (WStr × α) → List (WStr × α)
  | [] => []
  | kv :: rest => if kv.1 = k then aerase k rest else kv :: aerase k rest

/-- `map[k] = v`: overwrite-or-insert. -/
def ainsert {α : Type} (k : WStr) (v : α) (l : List (WStr × α)) :
    List (WStr × α) :=
  (k, v) :: aerase k l

structure T1Entry where
  width : Nat
  height : Nat
  lastAccess : Nat
deriving DecidableEq

structure T2Entry where
  compressedSize : Nat
  rawSize : Nat
  width : Nat
  height : Nat
deriving DecidableEq

structure ReadyThumb where
  path : WStr
  width : Nat
  height : Nat
deriving DecidableEq

structure SaveEntry where
  width : Nat
  height : Nat
deriving DecidableEq

/-- A decode task sitting in a worker-pool lane (0 = High, 1 = Normal,
2 = Low), with the generation value it captured at submission. -/
structure PoolTask where
  path : WStr
  targetSize : Nat
  gen : Nat
  lane : Nat
deriving DecidableEq

structure PipelineState where
  t1 : List (WStr × T1Entry)
  t1Bytes : Nat
  t2 : List (WStr × T2Entry)
  t2Bytes : Nat
  pending : List (WStr × Nat)
  visible : List WStr
  generation : Nat
  ready : List ReadyThumb
  persist : List (WStr × (Nat × Nat))
  saveBuf : List (WStr × SaveEntry)
  syncBudget : Nat
  pool : List PoolTask
  clock : Nat
deriving DecidableEq

/-- The freshly initialized pipeline: every container empty, generation 0,
no per-frame budget granted yet (`persistSyncBudget_ = 0`). -/
def initState : PipelineState :=
  ⟨[], 0, [], 0, [], [], 0, [], [], [], 0, [], 0⟩

structure PipelineEnv where
  decode : WStr → Nat → Option (Nat × Nat)
  createOk : WStr → Nat → Nat → Bool
  compressSize : Nat → Option Nat
  decompressOk : WStr → Bool
  rendererPresent : Bool
  decoderPresent : Bool

def ThumbnailCacheMaxBytes : Nat := 1073741824

def kTier2MaxBytes : Nat := 268435456

def PersistSyncBudgetPerFrame : Nat := 200

/-- `UI::Theme::ThumbnailCacheMaxBytes * 3 / 4` (ImagePipeline.cpp 825). -/
def evictTargetBytes : Nat := ThumbnailCacheMaxBytes * 3 / 4

def entryBytes (e : T1Entry) : Nat := e.width * e.height * 4

def candBytes (c : WStr × T1Entry) : Nat := c.2.width * c.2.height * 4

/-- The synchronous persistent-cache path shared by `RequestThumbnail`
(lines 502-531) and `GetCachedThumbnail` (lines 408-435): if budget
remains, a renderer exists, the persistent index holds the path with
non-degenerate dimensions and the GPU upload succeeds, insert into Tier 1
and decrement the budget; otherwise report `none`. -/
def persistSyncLoad (env : PipelineEnv) (st : PipelineState) (p : WStr) :
    Option PipelineState :=
  if 0 < st.syncBudget ∧ env.rendererPresent = true then
    match alookup p st.persist with
    | some wh =>
      if 0 < wh.1 ∧ 0 < wh.2 then
        if env.createOk p wh.1 wh.2 then
          some { st with
            syncBudget := st.syncBudget - 1,
            t1Bytes := st.t1Bytes + wh.1 * wh.2 * 4,
            t1 := ainsert p ⟨wh.1, wh.2, st.clock⟩ st.t1,
            clock := st.clock + 1 }
        else none
      else none
    | none => none
  else none

/-- Pending-dedup and task submission (lines 535-557): record the path as
pending at the current generation and submit the decode task — front of the
High lane when the path is visible, back of the Normal lane otherwise. -/
def queueDecodeRequest (st : PipelineState) (p : WStr) (targetSize : Nat) :
    PipelineState :=
  let gen := st.generation
  let st2 := { st with pending := ainsert p gen st.pending }
  if p ∈ st.visible then
    { st2 with pool := ⟨p, targetSize, gen, 0⟩ :: st2.pool }
  else
    { st2 with pool := st2.pool ++ [⟨p, targetSize, gen, 1⟩] }

/-- `ImagePipeline::RequestThumbnail` (lines 487-560). -/
def requestThumbnail (env : PipelineEnv) (st : PipelineState) (p : WStr)
    (targetSize : Nat) : PipelineState :=
  match alookup p st.t1 with
  | some e =>
    { st with t1 := ainsert p { e with lastAccess := st.clock } st.t1,
              clock := st.clock + 1 }
  | none =>
    match persistSyncLoad env st p with
    | some st2 => st2
    | none =>
      match alookup p st.pending with
      | some g =>
        if g = st.generation then st
        else queueDecodeRequest st p targetSize
      | none => queueDecodeRequest st p targetSize

/-- `ImagePipeline::GetCachedThumbnail` (lines 394-438): Tier-1 hit or the
synchronous persistent path; never queues a decode. -/
def getCachedThumbnail (env : PipelineEnv) (st : PipelineState) (p : WStr) :
    PipelineState :=
  match alookup p st.t1 with
  | some e =>
    { st with t1 := ainsert p { e with lastAccess := st.clock } st.t1,
              clock := st.clock + 1 }
  | none =>
    match persistSyncLoad env st p with
    | some st2 => st2
    | none => st

/-- Tier-3 lookup then decoder fallback (`ThumbnailDecodeTask` lines
694-726): dimensions of the produced pixel buffer, or `none` when every
source failed. -/
def taskTier3OrDecode (env : PipelineEnv) (st : PipelineState) (p : WStr)
    (targetSize : Nat) : Option (Nat × Nat) :=
  match alookup p st.persist with
  | some wh => some wh
  | none =>
    if env.decoderPresent = true then env.decode p targetSize
    else none

/-- First half of `ImagePipeline::ThumbnailDecodeTask` (lines 650-726):
generation check at entry, Tier-1 duplicate check, Tier-2 decompress (the
entry is removed on success, kept on decompress failure), then Tier 3 /
full decode.  Returns the updated state and the pixel-buffer dimensions,
`none` meaning the task aborted or failed and will push nothing. -/
def decodeTaskPhase1 (env : PipelineEnv) (st : PipelineState) (p : WStr)
    (targetSize : Nat) (taskGen : Nat) : PipelineState × Option (Nat × Nat) :=
  if taskGen < st.generation then (st, none)
  else if (alookup p st.t1).isSome then (st, none)
  else
    match alookup p st.t2 with
    | some e =>
      if env.decompressOk p = true then
        ({ st with t2 := aerase p st.t2,
                   t2Bytes := st.t2Bytes - e.compressedSize },
         some (e.width, e.height))
      else (st, taskTier3OrDecode env st p targetSize)
    | none => (st, taskTier3OrDecode env st p targetSize)

/-- Second half of the decode task (lines 733-746): re-check the generation
after the decode, then push the result onto the ready queue. -/
def decodeTaskPhase2 (st : PipelineState) (p : WStr) (wh : Nat × Nat)
    (taskGen : Nat) : PipelineState :=
  if taskGen < st.generation then st
  else { st with ready := st.ready ++ [⟨p, wh.1, wh.2⟩] }

/-- A whole decode task run without interleaving: both generation reads see
the same counter value. -/
def decodeTask (env : PipelineEnv) (st : PipelineState) (p : WStr)
    (targetSize : Nat) (taskGen : Nat) : PipelineState :=
  let r := decodeTaskPhase1 env st p targetSize taskGen
  match r.2 with
  | none => r.1
  | some wh => decodeTaskPhase2 r.1 p wh taskGen

/-- Eviction order: oldest `lastAccess` first (lines 811-814). -/
def accessLE (a b : WStr × T1Entry) : Prop :=
  a.2.lastAccess ≤ b.2.lastAccess

instance accessLE_dec : DecidableRel accessLE := fun a b => by
  unfold accessLE
  infer_instance

/-- The eviction loop (lines 826-840): walk the candidates oldest-first,
stop as soon as the tracked byte counter is at or below the 75% target,
otherwise erase the entry and subtract its bytes (saturating).  Returns the
remaining Tier-1 map, the final counter, and the removed candidates in
eviction order. -/
def evictLoop : List (WStr × T1Entry) → List (WStr × T1Entry) → Nat →
    List (WStr × T1Entry) × Nat × List (WStr × T1Entry)
  | [], t1, bytes => (t1, bytes, [])
  | c :: rest, t1, bytes =>
    if bytes ≤ evictTargetBytes then (t1, bytes, [])
    else
      let bytes2 := if candBytes c ≤ bytes then bytes - candBytes c else 0
      let r := evictLoop rest (aerase c.1 t1) bytes2
      (r.1, r.2.1, c :: r.2.2)

/-- Tier-2 demotion of one evicted entry (lines 845-866): only if its raw
pixels are still in the save buffer and compression succeeds; width and
height are stored as `uint16_t`, the raw size as `uint32_t`. -/
def demoteOne (env : PipelineEnv) (origSaveBuf : List (WStr × SaveEntry))
    (st : PipelineState) (c : WStr × T1Entry) : PipelineState :=
  match alookup c.1 origSaveBuf with
  | none => st
  | some _ =>
    match env.compressSize (c.2.width * c.2.height * 4 % 4294967296) with
    | some cs =>
      { st with
        t2Bytes := st.t2Bytes + cs,
        t2 := ainsert c.1
          ⟨cs, c.2.width * c.2.height * 4 % 4294967296,
           c.2.width % 65536, c.2.height % 65536⟩ st.t2 }
    | none => st

/-- `ImagePipeline::EvictThumbnailsIfNeeded` (lines 787-867): return early
at or below the ceiling; otherwise sort the non-visible entries oldest-first,
evict down to the 75% target, then demote to Tier 2 those removed entries
that were not already in Tier 2 while Tier 2 had headroom (both checked
against the pre-eviction Tier-2 state, which the erase loop never touches). -/
def evict (env : PipelineEnv) (st : PipelineState) : PipelineState :=
  if st.t1Bytes ≤ ThumbnailCacheMaxBytes then st
  else
    let cands := List.insertionSort accessLE
      (st.t1.filter (fun pe => decide (pe.1 ∉ st.visible)))
    let r := evictLoop cands st.t1 st.t1Bytes
    let demoteList := r.2.2.filter
      (fun c => decide (alookup c.1 st.t2 = none)
        && decide (st.t2Bytes < kTier2MaxBytes))
    let st2 := { st with t1 := r.1, t1Bytes := r.2.1 }
    demoteList.foldl (demoteOne env st.saveBuf) st2

/-- The save-buffer stash of the flush step (lines 588-597): record the
raw pixels under the path unless an entry is already present (dimensions
stored as `uint16_t`). -/
def flushSave (st : PipelineState) (r : ReadyThumb) : PipelineState :=
  match alookup r.path st.saveBuf with
  | some _ => st
  | none =>
    { st with
      saveBuf := ainsert r.path ⟨r.width % 65536, r.height % 65536⟩ st.saveBuf }

/-- Flush of one popped ready entry (lines 581-609): renderer present,
non-degenerate dimensions, GPU upload succeeds; then stash the raw pixels
in the save buffer, add the entry's bytes to the counter and insert into
Tier 1. -/
def flushOne (env : PipelineEnv) (acc : PipelineState × Nat) (r : ReadyThumb) :
    PipelineState × Nat :=
  if env.rendererPresent = true ∧ 0 < r.width ∧ 0 < r.height then
    if env.createOk r.path r.width r.height then
      ({ flushSave acc.1 r with
          t1Bytes := (flushSave acc.1 r).t1Bytes + r.width * r.height * 4,
          t1 := ainsert r.path ⟨r.width, r.height, (flushSave acc.1 r).clock⟩
            (flushSave acc.1 r).t1,
          clock := (flushSave acc.1 r).clock + 1 },
       acc.2 + 1)
    else acc
  else acc

/-- Post-flush eviction trigger (lines 613-615): evict only when at least
one Tier-1 insertion happened this flush. -/
def flushFinish (env : PipelineEnv) (r : PipelineState × Nat) :
    PipelineState × Nat :=
  if 0 < r.2 then (evict env r.1, r.2) else r

/-- `ImagePipeline::FlushReadyThumbnails` (lines 562-618): reset the
per-frame synchronous budget, pop up to `maxCount` ready entries, upload
each, and run eviction when at least one Tier-1 insertion happened.
Returns the new state and the number of bitmaps created. -/
def flushReadyThumbnails (env : PipelineEnv) (st : PipelineState)
    (maxCount : Nat) : PipelineState × Nat :=
  if min maxCount st.ready.length = 0 then
    ({ st with syncBudget := PersistSyncBudgetPerFrame }, 0)
  else
    flushFinish env
      ((st.ready.take (min maxCount st.ready.length)).foldl (flushOne env)
        ({ st with syncBudget := PersistSyncBudgetPerFrame,
                   ready := st.ready.drop (min maxCount st.ready.length) }, 0))

/-- `ImagePipeline::InvalidateRequests` (lines 620-633): advance the
generation counter, purge the Normal and Low worker lanes (High survives),
clear the pending-request table. -/
def invalidateRequests (st : PipelineState) : PipelineState :=
  { st with
    generation := st.generation + 1,
    pool := st.pool.filter (fun t => decide (t.lane = 0)),
    pending := [] }

/-- `ImagePipeline::SetVisibleRange` (lines 635-642). -/
def setVisibleRange (st : PipelineState) (paths : List WStr) : PipelineState :=
  { st with visible := paths }

/-- A worker picks up and completes the `i`-th queued decode task; with
several workers, completion order is arbitrary, so `i` is free. -/
def runPoolTask (env : PipelineEnv) (st : PipelineState) (i : Nat) :
    PipelineState :=
  match st.pool[i]? with
  | none => st
  | some t =>
    decodeTask env { st with pool := st.pool.eraseIdx i } t.path t.targetSize t.gen

/-- The operations of claim C1, applied from the render thread
(`request`, `flush`, `invalidate`) or a worker (`runTask`). -/
inductive PipeOp
  | request (p : WStr) (targetSize : Nat)
  | flush (maxCount : Nat)
  | invalidate
  | runTask (i : Nat)
deriving DecidableEq

def applyOp (env : PipelineEnv) (st : PipelineState) : PipeOp → PipelineState
  | .request p ts => requestThumbnail env st p ts
  | .flush n => (flushReadyThumbnails env st n).1
  | .invalidate => invalidateRequests st
  | .runTask i => runPoolTask env st i

def applyOps (env : PipelineEnv) (ops : List PipeOp) : PipelineState :=
  ops.foldl (applyOp env) initState

/-- A settled state: no queued or running decode work, ready queue drained. -/
def settled (st : PipelineState) : Prop :=
  st.pool = [] ∧ st.ready = []

/-! ### Claim C1: cache tier exclusivity -/

/-- The property claimed by C1 for one settled state: a Tier-1-resident
path has no pending-request entry at the current generation and no Tier-2
entry. -/
def cacheTierExclusive (st : PipelineState) : Prop :=
  ∀ p, (alookup p st.t1).isSome →
    alookup p st.pending ≠ some st.generation ∧ alookup p st.t2 = none

/-- Claim C1 as stated: exclusivity holds in every settled state reachable
by `RequestThumbnail`, `FlushReadyThumbnails`, `InvalidateRequests` and
decode-task completions in any order. -/
def claimC1 : Prop :=
  ∀ (env : PipelineEnv) (ops : List PipeOp),
    settled (applyOps env ops) → cacheTierExclusive (applyOps env ops)

/-- Environment of the C1 counterexample trace: decoding `p` yields a
10000x10000 buffer (400 MB), decoding `q` a 20000x20000 one (1.6 GB); GPU
uploads and compression always succeed. -/
def env0 : PipelineEnv :=
  { decode := fun p _ =>
      if p = wstr "p" then some (10000, 10000)
      else if p = wstr "q" then some (20000, 20000) else none,
    createOk := fun _ _ _ => true,
    compressSize := fun n => some (n / 8),
    decompressOk := fun _ => true,
    rendererPresent := true,
    decoderPresent := true }

/-- The C1 counterexample trace: request and decode `p` under generation 0,
invalidate, request and decode `q` then `p` again under generation 1, flush
two entries (which evicts both, demoting them to Tier 2), then flush the
second decode result of `p`. -/
def opsC1 : List PipeOp :=
  [.request (wstr "p") 256, .runTask 0, .invalidate,
   .request (wstr "q") 256, .runTask 0,
   .request (wstr "p") 256, .runTask 0,
   .flush 2, .flush 1]

/-- C1 counterexample: in the settled state after `opsC1`, path `p` is
resident in Tier 1 while its pending-request entry still carries the
current generation and a Tier-2 entry for it exists — all three conditions
hold at once, refuting the claimed exclusivity. -/
theorem c1_counterexample : ¬ claimC1 := by
  intro h
  have hsettled : settled (applyOps env0 opsC1) := ⟨by decide, by decide⟩
  have h2 := h env0 opsC1 hsettled (wstr "p") (by decide)
  exact h2.1 (by decide)

/-! ### Claim C3: generation monotonicity and stale discard -/

/-- `N` successive calls to `InvalidateRequests`. -/
def invalidateN : Nat → PipelineState → PipelineState
  | 0, st => st
  | n + 1, st => invalidateN n (invalidateRequests st)

/-- C3: after `N` calls to `InvalidateRequests` the generation counter
equals its initial value plus `N`; a decode task whose captured generation
is below the counter at its entry check returns with the state — in
particular the ready queue — unchanged; and a decode task whose captured
generation is below the counter at the post-decode check (the counter
having advanced during the decode) pushes nothing either. -/
theorem c3_generation_monotone_stale_discard :
    (∀ (st : PipelineState) (n : Nat),
      (invalidateN n st).generation = st.generation + n)
    ∧ (∀ (env : PipelineEnv) (st : PipelineState) (p : WStr) (ts g : Nat),
      g < st.generation → decodeTask env st p ts g = st)
    ∧ (∀ (st : PipelineState) (p : WStr) (wh : Nat × Nat) (g : Nat),
      g < st.generation → decodeTaskPhase2 st p wh g = st) := by
  refine ⟨?_, ?_, ?_⟩
  · intro st n
    induction n generalizing st with
    | zero => rfl
    | succ n ih =>
      show (invalidateN n (invalidateRequests st)).generation = st.generation + (n + 1)
      rw [ih (invalidateRequests st)]
      simp only [invalidateRequests]
      omega
  · intro env st p ts g hg
    simp [decodeTask, decodeTaskPhase1, hg]
  · intro st p wh g hg
    simp [decodeTaskPhase2, hg]

/-- Witness for C3: three invalidations advance the counter from 0 to 3,
and a task that captured generation 0 is discarded against a counter at 1,
at both abort points. -/
theorem c3_witness :
    (invalidateN 3 initState).generation = initState.generation + 3
    ∧ decodeTask env0 (invalidateRequests initState) (wstr "p") 256 0
        = invalidateRequests initState
    ∧ decodeTaskPhase2 (invalidateRequests initState) (wstr "p") (10, 10) 0
        = invalidateRequests initState := by
  refine ⟨c3_generation_monotone_stale_discard.1 initState 3, ?_, ?_⟩
  · exact c3_generation_monotone_stale_discard.2.1 env0 (invalidateRequests initState)
      (wstr "p") 256 0 (by decide)
  · exact c3_generation_monotone_stale_discard.2.2 (invalidateRequests initState)
      (wstr "p") (10, 10) 0 (by decide)

/-! ### Claim C4: the tracked Tier-1 byte counter -/

/-- Sum over all Tier-1 entries of `width * height * 4`. -/
def sumT1 : List (WStr × T1Entry) → Nat
  | [] => 0
  | kv :: rest => kv.2.width * kv.2.height * 4 + sumT1 rest

/-- Keys of an association list are pairwise distinct (an
`std::unordered_map` invariant). -/
def keysNodup {α : Type} (l : List (WStr × α)) : Prop :=
  (l.map Prod.fst).Nodup

/-- Well-formedness of the byte tracking: the incrementally maintained
counter equals the sum over the current Tier-1 entries, and Tier-1 keys
are distinct. -/
def wfBytes (st : PipelineState) : Prop :=
  st.t1Bytes = sumT1 st.t1 ∧ keysNodup st.t1

instance keysNodup_dec {α : Type} [DecidableEq α] (l : List (WStr × α)) :
    Decidable (keysNodup l) := by
  unfold keysNodup
  infer_instance

instance wfBytes_dec (st : PipelineState) : Decidable (wfBytes st) := by
  unfold wfBytes
  infer_instance

/-- Claim C4 as stated: after any operation sequence, the tracked counter
equals the sum over the Tier-1 entries — including overwriting inserts. -/
def claimC4 : Prop :=
  ∀ (env : PipelineEnv) (ops : List PipeOp),
    (applyOps env ops).t1Bytes = sumT1 (applyOps env ops).t1

/-- Environment of the C4 counterexample: every decode yields a 10x10
buffer (400 bytes). -/
def envC4 : PipelineEnv :=
  { decode := fun _ _ => some (10, 10),
    createOk := fun _ _ _ => true,
    compressSize := fun n => some (n / 8),
    decompressOk := fun _ => true,
    rendererPresent := true,
    decoderPresent := true }

/-- The C4 counterexample trace: decode `p` twice (across an invalidation,
so the duplicate suppression does not apply), then flush both ready
entries in one call — the second insert overwrites the first. -/
def opsC4 : List PipeOp :=
  [.request (wstr "p") 256, .runTask 0, .invalidate,
   .request (wstr "p") 256, .runTask 0, .flush 2]

/-- C4 counterexample: after `opsC4` the single 10x10 Tier-1 entry sums to
400 bytes but the tracked counter reads 800 — the overwriting insert added
the new bytes without subtracting the overwritten entry's. -/
theorem c4_counterexample : ¬ claimC4 := by
  intro h
  exact absurd (h envC4 opsC4) (by decide)

/-! ### Association-list lemmas -/

theorem alookup_aerase_self {α : Type} (k : WStr) (l : List (WStr × α)) :
    alookup k (aerase k l) = none := by
  induction l with
  | nil => rfl
  | cons kv rest ih =>
    by_cases h : kv.1 = k
    · simp only [aerase, if_pos h]
      exact ih
    · simp only [aerase, if_neg h, alookup, if_neg h]
      exact ih

theorem alookup_aerase_ne {α : Type} (k k2 : WStr) (l : List (WStr × α))
    (h : k ≠ k2) : alookup k2 (aerase k l) = alookup k2 l := by
  induction l with
  | nil => rfl
  | cons kv rest ih =>
    by_cases h1 : kv.1 = k
    · have h2 : kv.1 ≠ k2 := by
        rw [h1]
        exact h
      simp only [aerase, if_pos h1, alookup, if_neg h2]
      exact ih
    · simp only [aerase, if_neg h1, alookup]
      by_cases h2 : kv.1 = k2
      · simp only [if_pos h2]
      · simp only [if_neg h2]
        exact ih

theorem alookup_none_iff {α : Type} (k : WStr) (l : List (WStr × α)) :
    alookup k l = none ↔ k ∉ l.map Prod.fst := by
  induction l with
  | nil => simp [alookup]
  | cons kv rest ih =>
    by_cases h : kv.1 = k
    · simp [alookup, if_pos h, h]
    · simp only [alookup, if_neg h, List.map_cons, List.mem_cons, ih]
      constructor
      · intro hn hmem
        rcases hmem with hmem | hmem
        · exact h hmem.symm
        · exact hn hmem
      · intro hn hmem
        exact hn (Or.inr hmem)

theorem aerase_of_none {α : Type} (k : WStr) (l : List (WStr × α))
    (h : alookup k l = none) : aerase k l = l := by
  induction l with
  | nil => rfl
  | cons kv rest ih =>
    by_cases h1 : kv.1 = k
    · rw [alookup, if_pos h1] at h
      exact absurd h (by simp)
    · rw [alookup, if_neg h1] at h
      rw [aerase, if_neg h1, ih h]

theorem keys_aerase_sublist {α : Type} (k : WStr) (l : List (WStr × α)) :
    ((aerase k l).map Prod.fst).Sublist (l.map Prod.fst) := by
  induction l with
  | nil => simp [aerase]
  | cons kv rest ih =>
    by_cases h : kv.1 = k
    · simp only [aerase, if_pos h, List.map_cons]
      exact ih.cons _
    · simp only [aerase, if_neg h, List.map_cons]
      exact ih.cons₂ _

theorem keysNodup_aerase {α : Type} (k : WStr) (l : List (WStr × α))
    (h : keysNodup l) : keysNodup (aerase k l) :=
  (keys_aerase_sublist k l).nodup h

theorem keysNodup_ainsert {α : Type} (k : WStr) (v : α) (l : List (WStr × α))
    (h : keysNodup l) : keysNodup (ainsert k v l) := by
  unfold keysNodup ainsert
  rw [List.map_cons, List.nodup_cons]
  refine ⟨?_, keysNodup_aerase k l h⟩
  intro hmem
  exact absurd ((alookup_none_iff k (aerase k l)).mp (alookup_aerase_self k l)) (fun hn => hn hmem)

theorem mem_alookup {α : Type} (c : WStr × α) (l : List (WStr × α))
    (hn : keysNodup l) (hm : c ∈ l) : alookup c.1 l = some c.2 := by
  induction l with
  | nil => exact absurd hm (by simp)
  | cons kv rest ih =>
    rcases List.mem_cons.mp hm with hm | hm
    · rw [hm, alookup, if_pos rfl]
    · unfold keysNodup at hn
      rw [List.map_cons, List.nodup_cons] at hn
      by_cases h : kv.1 = c.1
      · exfalso
        apply hn.1
        rw [h]
        exact List.mem_map_of_mem Prod.fst hm
      · rw [alookup, if_neg h]
        exact ih hn.2 hm

theorem sumT1_ainsert_of_none (k : WStr) (v : T1Entry)
    (l : List (WStr × T1Entry)) (h : alookup k l = none) :
    sumT1 (ainsert k v l) = v.width * v.height * 4 + sumT1 l := by
  unfold ainsert
  rw [aerase_of_none k l h]
  rfl

theorem sumT1_aerase (k : WStr) (e : T1Entry) (l : List (WStr × T1Entry))
    (hn : keysNodup l) (hl : alookup k l = some e) :
    sumT1 l = sumT1 (aerase k l) + e.width * e.height * 4 := by
  induction l with
  | nil => simp [alookup] at hl
  | cons kv rest ih =>
    unfold keysNodup at hn
    rw [List.map_cons, List.nodup_cons] at hn
    by_cases h : kv.1 = k
    · rw [alookup, if_pos h] at hl
      have he : kv.2 = e := by
        injection hl
      have hnone : alookup k rest = none := by
        rw [alookup_none_iff]
        intro hmem
        exact hn.1 (h ▸ hmem)
      rw [aerase, if_pos h, aerase_of_none k rest hnone, sumT1, he]
      omega
    · rw [alookup, if_neg h] at hl
      rw [aerase, if_neg h, sumT1, sumT1]
      rw [ih hn.2 hl]
      omega

theorem sumT1_ainsert_touch (k : WStr) (e e' : T1Entry)
    (l : List (WStr × T1Entry)) (hn : keysNodup l) (hl : alookup k l = some e)
    (hw : e'.width = e.width) (hh : e'.height = e.height) :
    sumT1 (ainsert k e' l) = sumT1 l := by
  unfold ainsert
  rw [sumT1_aerase k e l hn hl]
  show e'.width * e'.height * 4 + sumT1 (aerase k l) = _
  rw [hw, hh]
  omega

/-! ### Byte-counter preservation (amended C4) -/

theorem persistSyncLoad_wf (env : PipelineEnv) (st : PipelineState) (p : WStr)
    (st2 : PipelineState) (hw : wfBytes st) (hmiss : alookup p st.t1 = none)
    (h : persistSyncLoad env st p = some st2) : wfBytes st2 := by
  unfold persistSyncLoad at h
  split at h
  · split at h
    next wh hwh =>
      split at h
      · split at h
        · injection h with h
          subst h
          constructor
          · show st.t1Bytes + wh.1 * wh.2 * 4 = sumT1 (ainsert p ⟨wh.1, wh.2, st.clock⟩ st.t1)
            rw [sumT1_ainsert_of_none p _ st.t1 hmiss, hw.1]
            show sumT1 st.t1 + wh.1 * wh.2 * 4 = wh.1 * wh.2 * 4 + sumT1 st.t1
            omega
          · exact keysNodup_ainsert p _ st.t1 hw.2
        · exact absurd h (by simp)
      · exact absurd h (by simp)
    next => exact absurd h (by simp)
  · exact absurd h (by simp)

theorem requestThumbnail_wf (env : PipelineEnv) (st : PipelineState) (p : WStr)
    (ts : Nat) (hw : wfBytes st) : wfBytes (requestThumbnail env st p ts) := by
  unfold requestThumbnail
  split
  next e he =>
    constructor
    · show st.t1Bytes = sumT1 (ainsert p { e with lastAccess := st.clock } st.t1)
      rw [sumT1_ainsert_touch p e { e with lastAccess := st.clock } st.t1 hw.2 he rfl rfl]
      exact hw.1
    · exact keysNodup_ainsert p _ st.t1 hw.2
  next hmiss =>
    split
    next st2 hst2 => exact persistSyncLoad_wf env st p st2 hw hmiss hst2
    next =>
      split
      next g hg =>
        split
        · exact hw
        · unfold queueDecodeRequest
          split <;> exact hw
      next =>
        unfold queueDecodeRequest
        split <;> exact hw

theorem getCachedThumbnail_wf (env : PipelineEnv) (st : PipelineState)
    (p : WStr) (hw : wfBytes st) : wfBytes (getCachedThumbnail env st p) := by
  unfold getCachedThumbnail
  split
  next e he =>
    constructor
    · show st.t1Bytes = sumT1 (ainsert p { e with lastAccess := st.clock } st.t1)
      rw [sumT1_ainsert_touch p e { e with lastAccess := st.clock } st.t1 hw.2 he rfl rfl]
      exact hw.1
    · exact keysNodup_ainsert p _ st.t1 hw.2
  next hmiss =>
    split
    next st2 hst2 => exact persistSyncLoad_wf env st p st2 hw hmiss hst2
    next => exact hw

theorem evictLoop_wf :
    ∀ (cands : List (WStr × T1Entry)) (t1 : List (WStr × T1Entry)) (bytes : Nat),
      bytes = sumT1 t1 → keysNodup t1 →
      (∀ c ∈ cands, alookup c.1 t1 = some c.2) →
      keysNodup cands →
      (evictLoop cands t1 bytes).2.1 = sumT1 (evictLoop cands t1 bytes).1
      ∧ keysNodup (evictLoop cands t1 bytes).1 := by
  intro cands
  induction cands with
  | nil =>
    intro t1 bytes hb hn _ _
    exact ⟨hb, hn⟩
  | cons c rest ih =>
    intro t1 bytes hb hn hmem hcn
    unfold evictLoop
    split
    · exact ⟨hb, hn⟩
    · have hc : alookup c.1 t1 = some c.2 := hmem c (List.mem_cons_self c rest)
      have hsum : sumT1 t1 = sumT1 (aerase c.1 t1) + candBytes c :=
        sumT1_aerase c.1 c.2 t1 hn hc
      have hle : candBytes c ≤ bytes := by
        rw [hb, hsum]
        omega
      rw [if_pos hle]
      unfold keysNodup at hcn
      rw [List.map_cons, List.nodup_cons] at hcn
      have hrest : ∀ c2 ∈ rest, alookup c2.1 (aerase c.1 t1) = some c2.2 := by
        intro c2 hc2
        have hne : c.1 ≠ c2.1 := by
          intro heq
          exact hcn.1 (heq ▸ List.mem_map_of_mem Prod.fst hc2)
        rw [alookup_aerase_ne c.1 c2.1 t1 hne]
        exact hmem c2 (List.mem_cons_of_mem c hc2)
      have hb2 : bytes - candBytes c = sumT1 (aerase c.1 t1) := by
        rw [hb, hsum]
        omega
      exact ih (aerase c.1 t1) (bytes - candBytes c) hb2
        (keysNodup_aerase c.1 t1 hn) hrest hcn.2

theorem demoteOne_t1 (env : PipelineEnv) (sb : List (WStr × SaveEntry))
    (st : PipelineState) (c : WStr × T1Entry) :
    (demoteOne env sb st c).t1 = st.t1
    ∧ (demoteOne env sb st c).t1Bytes = st.t1Bytes := by
  unfold demoteOne
  split
  · exact ⟨rfl, rfl⟩
  · split
    · exact ⟨rfl, rfl⟩
    · exact ⟨rfl, rfl⟩

theorem demoteFold_t1 (env : PipelineEnv) (sb : List (WStr × SaveEntry)) :
    ∀ (l : List (WStr × T1Entry)) (st : PipelineState),
      (l.foldl (demoteOne env sb) st).t1 = st.t1
      ∧ (l.foldl (demoteOne env sb) st).t1Bytes = st.t1Bytes := by
  intro l
  induction l with
  | nil => intro st; exact ⟨rfl, rfl⟩
  | cons c rest ih =>
    intro st
    have h1 := demoteOne_t1 env sb st c
    have h2 := ih (demoteOne env sb st c)
    exact ⟨h1.1 ▸ h2.1, h1.2 ▸ h2.2⟩

theorem evictCands_sound (st : PipelineState) (hw : wfBytes st) :
    (∀ c ∈ List.insertionSort accessLE
        (st.t1.filter (fun pe => decide (pe.1 ∉ st.visible))),
      alookup c.1 st.t1 = some c.2)
    ∧ keysNodup (List.insertionSort accessLE
        (st.t1.filter (fun pe => decide (pe.1 ∉ st.visible)))) := by
  have hperm := List.perm_insertionSort accessLE
    (st.t1.filter (fun pe => decide (pe.1 ∉ st.visible)))
  constructor
  · intro c hc
    have hc2 : c ∈ st.t1.filter (fun pe => decide (pe.1 ∉ st.visible)) :=
      hperm.mem_iff.mp hc
    exact mem_alookup c st.t1 hw.2 (List.mem_of_mem_filter hc2)
  · have hsub : ((st.t1.filter (fun pe => decide (pe.1 ∉ st.visible))).map
        Prod.fst).Sublist (st.t1.map Prod.fst) :=
      (List.filter_sublist st.t1).map Prod.fst
    exact (hperm.map Prod.fst).nodup_iff.mpr (hsub.nodup hw.2)

theorem evict_wf (env : PipelineEnv) (st : PipelineState) (hw : wfBytes st) :
    wfBytes (evict env st) := by
  unfold evict
  split
  · exact hw
  · obtain ⟨hmem, hcn⟩ := evictCands_sound st hw
    have hloop := evictLoop_wf
      (List.insertionSort accessLE
        (st.t1.filter (fun pe => decide (pe.1 ∉ st.visible))))
      st.t1 st.t1Bytes hw.1 hw.2 hmem hcn
    constructor
    · show (List.foldl (demoteOne env st.saveBuf) _ _).t1Bytes
        = sumT1 (List.foldl (demoteOne env st.saveBuf) _ _).t1
      rw [(demoteFold_t1 env st.saveBuf _ _).2, (demoteFold_t1 env st.saveBuf _ _).1]
      exact hloop.1
    · show keysNodup (List.foldl (demoteOne env st.saveBuf) _ _).t1
      rw [(demoteFold_t1 env st.saveBuf _ _).1]
      exact hloop.2

theorem flushSave_t1 (st : PipelineState) (r : ReadyThumb) :
    (flushSave st r).t1 = st.t1 ∧ (flushSave st r).t1Bytes = st.t1Bytes
    ∧ (flushSave st r).clock = st.clock := by
  unfold flushSave
  split
  · exact ⟨rfl, rfl, rfl⟩
  · exact ⟨rfl, rfl, rfl⟩

theorem flushOne_wf (env : PipelineEnv) (st : PipelineState) (n : Nat)
    (r : ReadyThumb) (hw : wfBytes st) (hmiss : alookup r.path st.t1 = none) :
    wfBytes (flushOne env (st, n) r).1 := by
  unfold flushOne
  split
  · split
    · constructor
      · show (flushSave st r).t1Bytes + r.width * r.height * 4
          = sumT1 (ainsert r.path ⟨r.width, r.height, (flushSave st r).clock⟩
              (flushSave st r).t1)
        rw [(flushSave_t1 st r).1, (flushSave_t1 st r).2.1,
            sumT1_ainsert_of_none r.path _ st.t1 hmiss, hw.1]
        show sumT1 st.t1 + r.width * r.height * 4
          = r.width * r.height * 4 + sumT1 st.t1
        omega
      · show keysNodup (ainsert r.path ⟨r.width, r.height, (flushSave st r).clock⟩
            (flushSave st r).t1)
        rw [(flushSave_t1 st r).1]
        exact keysNodup_ainsert r.path _ st.t1 hw.2
    · exact hw
  · exact hw

theorem flushOne_t1_untouched (env : PipelineEnv) (st : PipelineState) (n : Nat)
    (r : ReadyThumb) (p2 : WStr) (hne : p2 ≠ r.path) :
    alookup p2 (flushOne env (st, n) r).1.t1 = alookup p2 st.t1 := by
  unfold flushOne
  split
  · split
    · show alookup p2 (ainsert r.path ⟨r.width, r.height, (flushSave st r).clock⟩
          (flushSave st r).t1) = _
      unfold ainsert
      rw [alookup, if_neg (fun h => hne h.symm)]
      rw [alookup_aerase_ne r.path p2 (flushSave st r).t1 (fun h => hne h.symm)]
      rw [(flushSave_t1 st r).1]
    · rfl
  · rfl

theorem flushFold_wf (env : PipelineEnv) :
    ∀ (batch : List ReadyThumb) (st : PipelineState) (n : Nat),
      wfBytes st → (batch.map ReadyThumb.path).Nodup →
      (∀ r ∈ batch, alookup r.path st.t1 = none) →
      wfBytes (batch.foldl (flushOne env) (st, n)).1 := by
  intro batch
  induction batch with
  | nil =>
    intro st n hw _ _
    exact hw
  | cons r rest ih =>
    intro st n hw hnod hmiss
    rw [List.map_cons, List.nodup_cons] at hnod
    have hw2 : wfBytes (flushOne env (st, n) r).1 :=
      flushOne_wf env st n r hw (hmiss r (List.mem_cons_self r rest))
    have hmiss2 : ∀ r2 ∈ rest, alookup r2.path (flushOne env (st, n) r).1.t1 = none := by
      intro r2 hr2
      have hne : r2.path ≠ r.path := by
        intro heq
        exact hnod.1 (heq ▸ List.mem_map_of_mem ReadyThumb.path hr2)
      rw [flushOne_t1_untouched env st n r r2.path hne]
      exact hmiss r2 (List.mem_cons_of_mem r hr2)
    have := ih (flushOne env (st, n) r).1 (flushOne env (st, n) r).2 hw2 hnod.2 hmiss2
    simpa using this

theorem flushReadyThumbnails_wf (env : PipelineEnv) (st : PipelineState)
    (maxCount : Nat) (hw : wfBytes st)
    (hnod : ((st.ready.take (min maxCount st.ready.length)).map
        ReadyThumb.path).Nodup)
    (hmiss : ∀ r ∈ st.ready.take (min maxCount st.ready.length),
        alookup r.path st.t1 = none) :
    wfBytes (flushReadyThumbnails env st maxCount).1 := by
  unfold flushReadyThumbnails
  split
  · exact hw
  · have hwf : wfBytes (((st.ready.take (min maxCount st.ready.length)).foldl
        (flushOne env)
        ({ st with syncBudget := PersistSyncBudgetPerFrame,
                   ready := st.ready.drop (min maxCount st.ready.length) }, 0)).1) :=
      flushFold_wf env _ _ 0 ⟨hw.1, hw.2⟩ hnod hmiss
    unfold flushFinish
    split
    · exact evict_wf env _ hwf
    · exact hwf

/-- C4 (amended): with distinct Tier-1 keys, the tracked byte counter stays
equal to the sum over Tier-1 entries of `width * height * 4` across
`RequestThumbnail` (including its synchronous persistent path),
`GetCachedThumbnail` promotion and eviction unconditionally, and across
`FlushReadyThumbnails` provided no flushed ready entry's path is already
Tier-1-resident or duplicated inside the flushed batch — an overwriting
insert adds the new entry's bytes without subtracting the overwritten
entry's, which is exactly the case the counterexample exhibits. -/
theorem c4_bytes_tracking_amended :
    (∀ (env : PipelineEnv) (st : PipelineState) (p : WStr) (ts : Nat),
      wfBytes st → wfBytes (requestThumbnail env st p ts))
    ∧ (∀ (env : PipelineEnv) (st : PipelineState) (p : WStr),
      wfBytes st → wfBytes (getCachedThumbnail env st p))
    ∧ (∀ (env : PipelineEnv) (st : PipelineState),
      wfBytes st → wfBytes (evict env st))
    ∧ (∀ (env : PipelineEnv) (st : PipelineState) (maxCount : Nat),
      wfBytes st →
      ((st.ready.take (min maxCount st.ready.length)).map ReadyThumb.path).Nodup →
      (∀ r ∈ st.ready.take (min maxCount st.ready.length),
        alookup r.path st.t1 = none) →
      wfBytes (flushReadyThumbnails env st maxCount).1) := by
  exact ⟨requestThumbnail_wf, getCachedThumbnail_wf, evict_wf, flushReadyThumbnails_wf⟩

/-- Witness for the amended C4: a concrete flush of one 10x10 ready entry
into an empty Tier 1 leaves the counter equal to the 400-byte sum. -/
theorem c4_witness :
    wfBytes (flushReadyThumbnails envC4
      { initState with ready := [⟨wstr "p", 10, 10⟩] } 1).1
    ∧ (flushReadyThumbnails envC4
        { initState with ready := [⟨wstr "p", 10, 10⟩] } 1).1.t1Bytes = 400 := by
  constructor
  · exact c4_bytes_tracking_amended.2.2.2 envC4
      { initState with ready := [⟨wstr "p", 10, 10⟩] } 1
      ⟨by decide, by decide⟩ (by decide) (by decide)
  · decide

/-! ### Local tier exclusivity (amended C1) -/

theorem evictLoop_lookup_none :
    ∀ (cands t1 : List (WStr × T1Entry)) (bytes : Nat) (k : WStr),
      alookup k t1 = none → alookup k (evictLoop cands t1 bytes).1 = none := by
  intro cands
  induction cands with
  | nil =>
    intro t1 bytes k h
    exact h
  | cons c rest ih =>
    intro t1 bytes k h
    unfold evictLoop
    split
    · exact h
    · split
      · refine ih (aerase c.1 t1) _ k ?_
        by_cases hk : c.1 = k
        · rw [← hk]
          exact alookup_aerase_self c.1 t1
        · rw [alookup_aerase_ne c.1 k t1 hk]
          exact h
      · refine ih (aerase c.1 t1) _ k ?_
        by_cases hk : c.1 = k
        · rw [← hk]
          exact alookup_aerase_self c.1 t1
        · rw [alookup_aerase_ne c.1 k t1 hk]
          exact h

theorem evictLoop_removed_none :
    ∀ (cands t1 : List (WStr × T1Entry)) (bytes : Nat)
      (c : WStr × T1Entry), c ∈ (evictLoop cands t1 bytes).2.2 →
      alookup c.1 (evictLoop cands t1 bytes).1 = none := by
  intro cands
  induction cands with
  | nil =>
    intro t1 bytes c hc
    exact absurd hc (by simp [evictLoop])
  | cons c0 rest ih =>
    intro t1 bytes c hc
    unfold evictLoop at hc ⊢
    split at hc
    · exact absurd hc (by simp)
    · rename_i hgt
      rw [if_neg hgt]
      split at hc <;> rename_i hble
      · simp only [if_pos hble] at hc ⊢
        rcases List.mem_cons.mp hc with hc | hc
        · rw [hc]
          exact evictLoop_lookup_none rest (aerase c0.1 t1) _ c0.1
            (alookup_aerase_self c0.1 t1)
        · exact ih (aerase c0.1 t1) _ c hc
      · simp only [if_neg hble] at hc ⊢
        rcases List.mem_cons.mp hc with hc | hc
        · rw [hc]
          exact evictLoop_lookup_none rest (aerase c0.1 t1) _ c0.1
            (alookup_aerase_self c0.1 t1)
        · exact ih (aerase c0.1 t1) _ c hc

theorem demoteOne_t2_other (env : PipelineEnv) (sb : List (WStr × SaveEntry))
    (st : PipelineState) (c : WStr × T1Entry) (p : WStr) (hne : c.1 ≠ p) :
    alookup p (demoteOne env sb st c).t2 = alookup p st.t2 := by
  unfold demoteOne
  split
  · rfl
  · split
    · show alookup p (ainsert c.1 _ st.t2) = _
      unfold ainsert
      rw [alookup, if_neg hne]
      exact alookup_aerase_ne c.1 p st.t2 hne
    · rfl

theorem demoteFold_t2_new (env : PipelineEnv) (sb : List (WStr × SaveEntry)) :
    ∀ (l : List (WStr × T1Entry)) (st : PipelineState) (p : WStr),
      alookup p (l.foldl (demoteOne env sb) st).t2 ≠ none →
      alookup p st.t2 = none → p ∈ l.map Prod.fst := by
  intro l
  induction l with
  | nil =>
    intro st p hsome hnone
    exact absurd hnone hsome
  | cons c rest ih =>
    intro st p hsome hnone
    by_cases hp : c.1 = p
    · rw [List.map_cons, hp]
      exact List.mem_cons_self p _
    · rw [List.map_cons]
      refine List.mem_cons_of_mem c.1 (ih (demoteOne env sb st c) p hsome ?_)
      rw [demoteOne_t2_other env sb st c p hp]
      exact hnone

/-- C1 (amended): the exclusivity that the implementation actually provides
is operation-local.  (a) An eviction pass never leaves a path it newly
demoted to Tier 2 resident in Tier 1.  (b) A decode task that runs
non-stale against a path absent from Tier 1 but present in Tier 2 removes
the Tier-2 entry when promoting it.  Globally, a Tier-1-resident path may
keep its pending-request entry at the current generation (nothing clears
the table on completion short of `InvalidateRequests`) and may reacquire a
Tier-2 entry while a second decode result for it is still queued, as the
counterexample trace shows. -/
theorem c1_local_tier_exclusivity :
    (∀ (env : PipelineEnv) (st : PipelineState) (p : WStr),
      alookup p st.t2 = none →
      (alookup p (evict env st).t2).isSome = true →
      alookup p (evict env st).t1 = none)
    ∧ (∀ (env : PipelineEnv) (st : PipelineState) (p : WStr) (ts g : Nat)
        (e : T2Entry),
      st.generation ≤ g →
      alookup p st.t1 = none →
      alookup p st.t2 = some e →
      env.decompressOk p = true →
      alookup p (decodeTask env st p ts g).t2 = none) := by
  constructor
  · intro env st p hnone hsome
    unfold evict at hsome ⊢
    split at hsome
    · rw [hnone] at hsome
      exact absurd hsome (by simp)
    · rename_i hover
      rw [if_neg hover]
      have hne : alookup p (List.foldl (demoteOne env st.saveBuf)
          { st with
            t1 := (evictLoop (List.insertionSort accessLE
              (st.t1.filter (fun pe => decide (pe.1 ∉ st.visible))))
              st.t1 st.t1Bytes).1,
            t1Bytes := (evictLoop (List.insertionSort accessLE
              (st.t1.filter (fun pe => decide (pe.1 ∉ st.visible))))
              st.t1 st.t1Bytes).2.1 }
          ((evictLoop (List.insertionSort accessLE
              (st.t1.filter (fun pe => decide (pe.1 ∉ st.visible))))
              st.t1 st.t1Bytes).2.2.filter
            (fun c => decide (alookup c.1 st.t2 = none)
              && decide (st.t2Bytes < kTier2MaxBytes)))).t2 ≠ none := by
        intro hcontra
        rw [hcontra] at hsome
        exact absurd hsome (by simp)
      have hmem := demoteFold_t2_new env st.saveBuf _ _ p hne hnone
      obtain ⟨c, hcmem, hcp⟩ := List.mem_map.mp hmem
      have hrem : c ∈ (evictLoop (List.insertionSort accessLE
          (st.t1.filter (fun pe => decide (pe.1 ∉ st.visible))))
          st.t1 st.t1Bytes).2.2 :=
        List.mem_of_mem_filter hcmem
      have hfin := evictLoop_removed_none _ st.t1 st.t1Bytes c hrem
      rw [(demoteFold_t1 env st.saveBuf _ _).1]
      show alookup p (evictLoop (List.insertionSort accessLE
          (st.t1.filter (fun pe => decide (pe.1 ∉ st.visible))))
          st.t1 st.t1Bytes).1 = none
      rw [← hcp]
      exact hfin
  · intro env st p ts g e hg hmiss ht2 hok
    unfold decodeTask decodeTaskPhase1
    rw [if_neg (by omega : ¬ g < st.generation), hmiss]
    simp only [Option.isSome_none, Bool.false_eq_true, if_false, ht2, hok, if_true]
    unfold decodeTaskPhase2
    split
    · exact alookup_aerase_self p st.t2
    · exact alookup_aerase_self p st.t2

/-- Witness for the amended C1: a 1.6 GB single-entry Tier 1 demotes its
entry out of Tier 1 into Tier 2, and a decode task promotes a concrete
Tier-2 entry out of Tier 2. -/
theorem c1_witness :
    alookup (wstr "p") (evict envC4
      { initState with
        t1 := [(wstr "p", ⟨20000, 20000, 0⟩)],
        t1Bytes := 1600000000,
        saveBuf := [(wstr "p", ⟨20000, 20000⟩)] }).t1 = none
    ∧ alookup (wstr "p") (decodeTask envC4
        { initState with t2 := [(wstr "p", ⟨100, 1600, 20, 20⟩)], t2Bytes := 100 }
        (wstr "p") 256 0).t2 = none := by
  constructor
  · exact c1_local_tier_exclusivity.1 envC4
      { initState with
        t1 := [(wstr "p", ⟨20000, 20000, 0⟩)],
        t1Bytes := 1600000000,
        saveBuf := [(wstr "p", ⟨20000, 20000⟩)] }
      (wstr "p") (by decide) (by decide)
  · exact c1_local_tier_exclusivity.2 envC4
      { initState with t2 := [(wstr "p", ⟨100, 1600, 20, 20⟩)], t2Bytes := 100 }
      (wstr "p") 256 0 ⟨100, 1600, 20, 20⟩ (by decide) (by decide) (by decide)
      (by decide)

/-! ### Claim C2: eviction correctness -/

/-- The eviction candidates: non-visible Tier-1 entries, oldest access
first (with distinct access times this order is unique, so the model's
stable sort coincides with any `std::sort` result). -/
def evictCands (st : PipelineState) : List (WStr × T1Entry) :=
  List.insertionSort accessLE
    (st.t1.filter (fun pe => decide (pe.1 ∉ st.visible)))

/-- Total bytes of a candidate list. -/
def sumC : List (WStr × T1Entry) → Nat
  | [] => 0
  | c :: rest => candBytes c + sumC rest

/-- All Tier-1 access times pairwise distinct. -/
def accessDistinct (l : List (WStr × T1Entry)) : Prop :=
  l.Pairwise (fun a b => a.2.lastAccess ≠ b.2.lastAccess)

/-- The spec's clause (c), following its words: the entries removed by the
eviction pass are exactly the first `k` of the oldest-access-first
non-visible candidates — `k` large enough to bring the tracked total to
the 75% target (or all of them), and no smaller prefix suffices. -/
def removedExactly (st st2 : PipelineState) (k : Nat) : Prop :=
  (∀ p, (alookup p st.t1).isSome = true →
    (alookup p st2.t1 = none ↔ p ∈ ((evictCands st).take k).map Prod.fst))
  ∧ st2.t1Bytes = st.t1Bytes - sumC ((evictCands st).take k)
  ∧ (st.t1Bytes - sumC ((evictCands st).take k) ≤ evictTargetBytes
      ∨ k = (evictCands st).length)
  ∧ ∀ j < k, evictTargetBytes < st.t1Bytes - sumC ((evictCands st).take j)

theorem aerase_sublist {α : Type} (k : WStr) (l : List (WStr × α)) :
    (aerase k l).Sublist l := by
  induction l with
  | nil => simp [aerase]
  | cons kv rest ih =>
    by_cases h : kv.1 = k
    · simp only [aerase, if_pos h]
      exact ih.cons kv
    · simp only [aerase, if_neg h]
      exact ih.cons₂ kv

theorem evictLoop_t1_sublist :
    ∀ (cands t1 : List (WStr × T1Entry)) (bytes : Nat),
      ((evictLoop cands t1 bytes).1).Sublist t1 := by
  intro cands
  induction cands with
  | nil =>
    intro t1 bytes
    exact List.Sublist.refl t1
  | cons c rest ih =>
    intro t1 bytes
    unfold evictLoop
    split
    · exact List.Sublist.refl t1
    · exact ((ih (aerase c.1 t1) _).trans (aerase_sublist c.1 t1))

theorem evictLoop_exact :
    ∀ (cands t1 : List (WStr × T1Entry)) (bytes : Nat),
      bytes = sumT1 t1 → keysNodup t1 →
      (∀ c ∈ cands, alookup c.1 t1 = some c.2) →
      keysNodup cands →
      ∃ k, k ≤ cands.length
        ∧ (evictLoop cands t1 bytes).2.2 = cands.take k
        ∧ (evictLoop cands t1 bytes).2.1 = bytes - sumC (cands.take k)
        ∧ (bytes - sumC (cands.take k) ≤ evictTargetBytes ∨ k = cands.length)
        ∧ (∀ j < k, evictTargetBytes < bytes - sumC (cands.take j))
        ∧ ∀ p, alookup p (evictLoop cands t1 bytes).1
            = if p ∈ (cands.take k).map Prod.fst then none
              else alookup p t1 := by
  intro cands
  induction cands with
  | nil =>
    intro t1 bytes hb hn hmem hcn
    refine ⟨0, Nat.le_refl 0, rfl, by simp [evictLoop, sumC], Or.inr rfl, by omega, ?_⟩
    intro p
    simp [evictLoop]
  | cons c rest ih =>
    intro t1 bytes hb hn hmem hcn
    by_cases hstop : bytes ≤ evictTargetBytes
    · refine ⟨0, Nat.zero_le _, ?_, ?_, Or.inl (by simpa [sumC] using hstop), by omega, ?_⟩
      · simp [evictLoop, hstop]
      · simp [evictLoop, hstop, sumC]
      · intro p
        simp [evictLoop, hstop]
    · have hc : alookup c.1 t1 = some c.2 := hmem c (List.mem_cons_self c rest)
      have hsum : sumT1 t1 = sumT1 (aerase c.1 t1) + candBytes c :=
        sumT1_aerase c.1 c.2 t1 hn hc
      have hble : candBytes c ≤ bytes := by
        rw [hb, hsum]
        omega
      unfold keysNodup at hcn
      rw [List.map_cons, List.nodup_cons] at hcn
      have hrest : ∀ c2 ∈ rest, alookup c2.1 (aerase c.1 t1) = some c2.2 := by
        intro c2 hc2
        have hne : c.1 ≠ c2.1 := by
          intro heq
          exact hcn.1 (heq ▸ List.mem_map_of_mem Prod.fst hc2)
        rw [alookup_aerase_ne c.1 c2.1 t1 hne]
        exact hmem c2 (List.mem_cons_of_mem c hc2)
      have hb2 : bytes - candBytes c = sumT1 (aerase c.1 t1) := by
        rw [hb, hsum]
        omega
      obtain ⟨k, hk, hrem, hbytes, hthird, hmin, hfifth⟩ :=
        ih (aerase c.1 t1) (bytes - candBytes c) hb2
          (keysNodup_aerase c.1 t1 hn) hrest hcn.2
      have hloop : evictLoop (c :: rest) t1 bytes
          = ((evictLoop rest (aerase c.1 t1) (bytes - candBytes c)).1,
             (evictLoop rest (aerase c.1 t1) (bytes - candBytes c)).2.1,
             c :: (evictLoop rest (aerase c.1 t1) (bytes - candBytes c)).2.2) := by
        show (if bytes ≤ evictTargetBytes then (t1, bytes, ([] : List (WStr × T1Entry)))
          else
            ((evictLoop rest (aerase c.1 t1)
                (if candBytes c ≤ bytes then bytes - candBytes c else 0)).1,
             (evictLoop rest (aerase c.1 t1)
                (if candBytes c ≤ bytes then bytes - candBytes c else 0)).2.1,
             c :: (evictLoop rest (aerase c.1 t1)
                (if candBytes c ≤ bytes then bytes - candBytes c else 0)).2.2)) = _
        rw [if_neg hstop, if_pos hble]
      refine ⟨k + 1, by simpa using hk, ?_, ?_, ?_, ?_, ?_⟩
      · rw [hloop]
        show c :: (evictLoop rest (aerase c.1 t1) (bytes - candBytes c)).2.2
          = c :: rest.take k
        rw [hrem]
      · rw [hloop]
        show (evictLoop rest (aerase c.1 t1) (bytes - candBytes c)).2.1
          = bytes - sumC (c :: rest.take k)
        rw [hbytes]
        show bytes - candBytes c - sumC (rest.take k)
          = bytes - (candBytes c + sumC (rest.take k))
        omega
      · rcases hthird with h | h
        · refine Or.inl ?_
          show bytes - sumC (c :: rest.take k) ≤ evictTargetBytes
          show bytes - (candBytes c + sumC (rest.take k)) ≤ evictTargetBytes
          omega
        · exact Or.inr (by simp [h])
      · intro j hj
        cases j with
        | zero =>
          show evictTargetBytes < bytes - sumC []
          simp only [sumC]
          omega
        | succ j2 =>
          have hj2 : j2 < k := by omega
          have := hmin j2 hj2
          show evictTargetBytes < bytes - sumC (c :: rest.take j2)
          show evictTargetBytes < bytes - (candBytes c + sumC (rest.take j2))
          omega
      · intro p
        rw [hloop]
        show alookup p (evictLoop rest (aerase c.1 t1) (bytes - candBytes c)).1
          = if p ∈ ((c :: rest.take k).map Prod.fst) then none else alookup p t1
        rw [hfifth p]
        by_cases hp : p = c.1
        · have hmemc : p ∈ (c :: rest.take k).map Prod.fst := by
            rw [List.map_cons, hp]
            exact List.mem_cons_self _ _
          rw [if_pos hmemc]
          by_cases hin : p ∈ (rest.take k).map Prod.fst
          · rw [if_pos hin]
          · rw [if_neg hin, hp]
            exact alookup_aerase_self c.1 t1
        · have hiff : (p ∈ (c :: rest.take k).map Prod.fst)
              ↔ (p ∈ (rest.take k).map Prod.fst) := by
            rw [List.map_cons, List.mem_cons]
            constructor
            · intro h
              rcases h with h | h
              · exact absurd h hp
              · exact h
            · intro h
              exact Or.inr h
          by_cases hin : p ∈ (rest.take k).map Prod.fst
          · rw [if_pos hin, if_pos (hiff.mpr hin)]
          · rw [if_neg hin, if_neg (fun hcontra => hin (hiff.mp hcontra))]
            exact alookup_aerase_ne c.1 p t1 (fun h => hp h.symm)

instance accessDistinct_dec (l : List (WStr × T1Entry)) :
    Decidable (accessDistinct l) := by
  unfold accessDistinct
  exact List.instDecidablePairwise l

/-- C2 (amended): for a well-formed Tier-1 state over the byte ceiling with
distinct access times, after eviction (a) the tracked total is at or below
the 75% target unless every remaining Tier-1 entry is visible (eviction
never touches visible entries, so a visible residue may stay above the
ceiling — the counterexample), (b) visible entries are untouched, and
(c) the removed entries are exactly the oldest-access prefix of the
non-visible candidates needed to reach the target. -/
theorem c2_eviction_correct (env : PipelineEnv) (st : PipelineState)
    (hw : wfBytes st) (hda : accessDistinct st.t1)
    (hover : ThumbnailCacheMaxBytes < st.t1Bytes) :
    ((evict env st).t1Bytes ≤ evictTargetBytes
      ∨ ∀ c ∈ (evict env st).t1, c.1 ∈ st.visible)
    ∧ (∀ p ∈ st.visible, alookup p (evict env st).t1 = alookup p st.t1)
    ∧ ∃ k, k ≤ (evictCands st).length ∧ removedExactly st (evict env st) k := by
  obtain ⟨hmem, hcn⟩ := evictCands_sound st hw
  obtain ⟨k, hk, hrem, hbytes, hthird, hmin, hfifth⟩ :=
    evictLoop_exact (evictCands st) st.t1 st.t1Bytes hw.1 hw.2 hmem hcn
  have hevict : evict env st
      = List.foldl (demoteOne env st.saveBuf)
          { st with t1 := (evictLoop (evictCands st) st.t1 st.t1Bytes).1,
                    t1Bytes := (evictLoop (evictCands st) st.t1 st.t1Bytes).2.1 }
          ((evictLoop (evictCands st) st.t1 st.t1Bytes).2.2.filter
            (fun c => decide (alookup c.1 st.t2 = none)
              && decide (st.t2Bytes < kTier2MaxBytes))) := by
    unfold evict
    rw [if_neg (by omega)]
    exact rfl
  have ht1 : (evict env st).t1
      = (evictLoop (evictCands st) st.t1 st.t1Bytes).1 := by
    rw [hevict]
    exact (demoteFold_t1 env st.saveBuf _ _).1
  have ht1b : (evict env st).t1Bytes
      = (evictLoop (evictCands st) st.t1 st.t1Bytes).2.1 := by
    rw [hevict]
    exact (demoteFold_t1 env st.saveBuf _ _).2
  have hnonvis : ∀ q ∈ (evictCands st).map Prod.fst, q ∉ st.visible := by
    intro q hq
    obtain ⟨cc, hcc, hfst⟩ := List.mem_map.mp hq
    have hfil : cc ∈ st.t1.filter (fun pe => decide (pe.1 ∉ st.visible)) :=
      (List.perm_insertionSort accessLE _).mem_iff.mp hcc
    have hpred := (List.mem_filter.mp hfil).2
    rw [decide_eq_true_eq] at hpred
    rw [← hfst]
    exact hpred
  refine ⟨?_, ?_, ?_⟩
  · rcases hthird with h | hkfull
    · exact Or.inl (by rw [ht1b, hbytes]; exact h)
    · refine Or.inr ?_
      intro c hcmem
      by_contra hcvis
      have hct1 : c ∈ st.t1 :=
        (evictLoop_t1_sublist (evictCands st) st.t1 st.t1Bytes).mem (ht1 ▸ hcmem)
      have hcfil : c ∈ st.t1.filter (fun pe => decide (pe.1 ∉ st.visible)) :=
        List.mem_filter.mpr ⟨hct1, by rw [decide_eq_true_eq]; exact hcvis⟩
      have hccand : c ∈ evictCands st :=
        (List.perm_insertionSort accessLE _).mem_iff.mpr hcfil
      have hkeymem : c.1 ∈ ((evictCands st).take k).map Prod.fst := by
        rw [hkfull, List.take_length]
        exact List.mem_map_of_mem Prod.fst hccand
      have hnone := hfifth c.1
      rw [if_pos hkeymem] at hnone
      have hwloop := evictLoop_wf (evictCands st) st.t1 st.t1Bytes hw.1 hw.2 hmem hcn
      have hlook : alookup c.1 (evictLoop (evictCands st) st.t1 st.t1Bytes).1
          = some c.2 :=
        mem_alookup c _ hwloop.2 (ht1 ▸ hcmem)
      rw [hlook] at hnone
      exact absurd hnone (by simp)
  · intro p hpvis
    have hptk : p ∉ ((evictCands st).take k).map Prod.fst := by
      intro hcontra
      have hsub : (((evictCands st).take k).map Prod.fst).Sublist
          ((evictCands st).map Prod.fst) :=
        (List.take_sublist k (evictCands st)).map Prod.fst
      exact hnonvis p (hsub.mem hcontra) hpvis
    rw [ht1, hfifth p, if_neg hptk]
  · refine ⟨k, hk, ?_, ?_, ?_, ?_⟩
    · intro p hsome
      rw [ht1, hfifth p]
      by_cases hmemk : p ∈ ((evictCands st).take k).map Prod.fst
      · rw [if_pos hmemk]
        exact ⟨fun _ => hmemk, fun _ => rfl⟩
      · rw [if_neg hmemk]
        constructor
        · intro hnone
          rw [hnone] at hsome
          exact absurd hsome (by simp)
        · intro hmem2
          exact absurd hmem2 hmemk
    · rw [ht1b, hbytes]
    · exact hthird
    · exact hmin

/-- Claim C2 as stated: `(a)` claims the post-eviction total is at or below
the ceiling unconditionally. -/
def claimC2 : Prop :=
  ∀ (env : PipelineEnv) (st : PipelineState),
    wfBytes st → accessDistinct st.t1 → ThumbnailCacheMaxBytes < st.t1Bytes →
    (evict env st).t1Bytes ≤ ThumbnailCacheMaxBytes
    ∧ (∀ p ∈ st.visible, alookup p (evict env st).t1 = alookup p st.t1)
    ∧ ∃ k, k ≤ (evictCands st).length ∧ removedExactly st (evict env st) k

/-- The C2 counterexample state: a single visible 1.6 GB entry. -/
def stC2x : PipelineState :=
  { initState with
    t1 := [(wstr "p", ⟨20000, 20000, 0⟩)],
    t1Bytes := 1600000000,
    visible := [wstr "p"] }

/-- C2 counterexample: with a visible set whose entries alone exceed the
ceiling, eviction removes nothing (visible entries are protected) and the
total stays above the ceiling, refuting clause (a) as stated. -/
theorem c2_counterexample : ¬ claimC2 := by
  intro h
  exact absurd (h envC4 stC2x ⟨by decide, by decide⟩ (by decide) (by decide)).1
    (by decide)

/-- The C2 witness state: a non-visible 1.6 GB entry (older) plus a visible
400 MB entry (newer). -/
def stC2w : PipelineState :=
  { initState with
    t1 := [(wstr "p", ⟨20000, 20000, 0⟩), (wstr "q", ⟨10000, 10000, 1⟩)],
    t1Bytes := 2000000000,
    visible := [wstr "q"] }

/-- Witness for C2 at a concrete over-ceiling state. -/
theorem c2_witness :
    ((evict envC4 stC2w).t1Bytes ≤ evictTargetBytes
      ∨ ∀ c ∈ (evict envC4 stC2w).t1, c.1 ∈ stC2w.visible)
    ∧ ∀ p ∈ stC2w.visible,
        alookup p (evict envC4 stC2w).t1 = alookup p stC2w.t1 := by
  have h := c2_eviction_correct envC4 stC2w ⟨by decide, by decide⟩ (by decide)
    (by decide)
  exact ⟨h.1, h.2.1⟩

/-! ## Persistent thumbnail cache file (C5)

`SavePersistentThumbs` (ImagePipeline.cpp 986-1068) and
`LoadPersistentThumbs` (895-984).  The file is a byte list: a 32-byte
header — magic "UIVT", version `u32` = 1, entry count `u32`, 20 reserved
zero bytes — followed by variable-length records
`{path_len u16, width u16, height u16, reserved u16, path (UTF-16),
pixels (width*height*4 bytes)}`, all little-endian.  The writer casts the
path length, width and height to `uint16_t` and the entry count to
`uint32_t`; the loader computes the pixel size in `uint32_t`; the
corresponding `% 2 ^ 16` / `% 2 ^ 32` truncations are explicit.  On any
bounds-check failure the loader keeps the entries parsed so far and stops,
exactly like the `break`s in the parsing loop. -/

structure ThumbRecord where
  path : WStr
  width : Nat
  height : Nat
  pixels : List Nat
deriving DecidableEq

def enc16 (n : Nat) : List Nat := [n % 256, n / 256 % 256]

def enc32 (n : Nat) : List Nat :=
  [n % 256, n / 256 % 256, n / 65536 % 256, n / 16777216 % 256]

def dec16 (a b : Nat) : Nat := a + 256 * b

def dec32 (a b c d : Nat) : Nat := a + 256 * b + 65536 * c + 16777216 * d

def magicUIVT : List Nat := [85, 73, 86, 84]

/-- UTF-16 code units from little-endian byte pairs. -/
def decPath : List Nat → WStr
  | a :: b :: rest => dec16 a b :: decPath rest
  | _ => []

/-- One record as written by `writeEntry` (lines 1029-1040): the length,
width and height cast to `uint16_t`, then that many path units, then
`width*height*4` pixel bytes. -/
def serEntry (e : ThumbRecord) : List Nat :=
  enc16 (e.path.length % 65536) ++ enc16 (e.width % 65536)
    ++ enc16 (e.height % 65536) ++ enc16 0
    ++ (e.path.take (e.path.length % 65536)).flatMap enc16
    ++ e.pixels.take ((e.width % 65536) * (e.height % 65536) * 4)

/-- The file produced by `SavePersistentThumbs` for a given save-buffer
content. -/
def serThumbs (es : List ThumbRecord) : List Nat :=
  magicUIVT ++ enc32 1 ++ enc32 (es.length % 4294967296)
    ++ List.replicate 20 0 ++ es.flatMap serEntry

/-- The sequential record parser of `LoadPersistentThumbs` (lines 947-975):
up to `entry_count` records, stopping — and keeping what was parsed — at
the first failing bounds check. -/
def parseEntries : Nat → List Nat → List ThumbRecord
  | 0, _ => []
  | n + 1, p0 :: p1 :: w0 :: w1 :: h0 :: h1 :: _ :: _ :: rest =>
    if rest.length < dec16 p0 p1 * 2 then []
    else
      if (rest.drop (dec16 p0 p1 * 2)).length
          < dec16 w0 w1 * dec16 h0 h1 * 4 % 4294967296 then []
      else
        ⟨decPath (rest.take (dec16 p0 p1 * 2)), dec16 w0 w1, dec16 h0 h1,
         (rest.drop (dec16 p0 p1 * 2)).take
           (dec16 w0 w1 * dec16 h0 h1 * 4 % 4294967296)⟩
          :: parseEntries n ((rest.drop (dec16 p0 p1 * 2)).drop
              (dec16 w0 w1 * dec16 h0 h1 * 4 % 4294967296))
  | _ + 1, _ => []

/-- `LoadPersistentThumbs`: reject files shorter than the header, with a
wrong magic, or with a version other than 1; otherwise parse
`entry_count` sequential records after the 32-byte header. -/
def loadThumbs (bs : List Nat) : List ThumbRecord :=
  if bs.length < 32 then []
  else if bs.take 4 ≠ magicUIVT then []
  else if dec32 (bs.getD 4 0) (bs.getD 5 0) (bs.getD 6 0) (bs.getD 7 0) ≠ 1 then []
  else parseEntries
    (dec32 (bs.getD 8 0) (bs.getD 9 0) (bs.getD 10 0) (bs.getD 11 0))
    (bs.drop 32)

/-- Well-formed record: the `u16`/`u32` fields are in range (as they are
for every record the pipeline actually saves) and the pixel buffer has
exactly `width*height*4` bytes. -/
def wfRecord (e : ThumbRecord) : Prop :=
  e.path.length < 65536 ∧ (∀ u ∈ e.path, u < 65536)
  ∧ e.width < 65536 ∧ e.height < 65536
  ∧ e.width * e.height * 4 < 4294967296
  ∧ e.pixels.length = e.width * e.height * 4

theorem dec16_enc16 (n : Nat) (h : n < 65536) :
    dec16 (n % 256) (n / 256 % 256) = n := by
  unfold dec16
  omega

theorem dec32_enc32 (n : Nat) (h : n < 4294967296) :
    dec32 (n % 256) (n / 256 % 256) (n / 65536 % 256) (n / 16777216 % 256) = n := by
  unfold dec32
  omega

theorem length_flatMap_enc16 (l : WStr) : (l.flatMap enc16).length = 2 * l.length := by
  induction l with
  | nil => rfl
  | cons u rest ih =>
    rw [List.flatMap_cons, List.length_append, ih]
    show 2 + 2 * rest.length = 2 * (rest.length + 1)
    omega

theorem decPath_enc16 (l : WStr) (h : ∀ u ∈ l, u < 65536) :
    decPath (l.flatMap enc16) = l := by
  induction l with
  | nil => rfl
  | cons u rest ih =>
    rw [List.flatMap_cons]
    show decPath (u % 256 :: u / 256 % 256 :: rest.flatMap enc16) = u :: rest
    unfold decPath
    rw [dec16_enc16 u (h u (List.mem_cons_self u rest)),
        ih (fun v hv => h v (List.mem_cons_of_mem u hv))]

theorem take_append_exact {α : Type} (l1 l2 : List α) (n : Nat)
    (h : l1.length = n) : (l1 ++ l2).take n = l1 := by
  subst h
  exact List.take_left l1 l2

theorem drop_append_exact {α : Type} (l1 l2 : List α) (n : Nat)
    (h : l1.length = n) : (l1 ++ l2).drop n = l2 := by
  subst h
  exact List.drop_left l1 l2

theorem serEntry_wf (e : ThumbRecord) (hw : wfRecord e) :
    serEntry e = enc16 e.path.length ++ enc16 e.width ++ enc16 e.height
      ++ enc16 0 ++ e.path.flatMap enc16 ++ e.pixels := by
  obtain ⟨h1, _, h3, h4, _, h6⟩ := hw
  unfold serEntry
  rw [Nat.mod_eq_of_lt h1, Nat.mod_eq_of_lt h3, Nat.mod_eq_of_lt h4,
      List.take_length, ← h6, List.take_length]

theorem parseEntries_roundtrip :
    ∀ (es : List ThumbRecord), (∀ e ∈ es, wfRecord e) →
      parseEntries es.length (es.flatMap serEntry) = es := by
  intro es
  induction es with
  | nil =>
    intro _
    rfl
  | cons e rest ih =>
    intro hwf
    have hw := hwf e (List.mem_cons_self e rest)
    obtain ⟨h1, h2, h3, h4, h5, h6⟩ := hw
    rw [List.flatMap_cons, serEntry_wf e (hwf e (List.mem_cons_self e rest))]
    show parseEntries (rest.length + 1)
      (enc16 e.path.length ++ enc16 e.width ++ enc16 e.height ++ enc16 0
        ++ e.path.flatMap enc16 ++ e.pixels ++ rest.flatMap serEntry) = e :: rest
    simp only [enc16, List.cons_append, List.nil_append, List.append_assoc]
    unfold parseEntries
    rw [dec16_enc16 e.path.length h1, dec16_enc16 e.width h3,
        dec16_enc16 e.height h4]
    have hlen : (e.path.flatMap enc16 ++ (e.pixels ++ rest.flatMap serEntry)).length
        = 2 * e.path.length + (e.pixels.length + (rest.flatMap serEntry).length) := by
      rw [List.length_append, List.length_append, length_flatMap_enc16]
    rw [if_neg (by rw [hlen]; omega)]
    rw [drop_append_exact (e.path.flatMap enc16) _ (e.path.length * 2)
      (by rw [length_flatMap_enc16]; omega)]
    rw [Nat.mod_eq_of_lt h5]
    rw [if_neg (by rw [List.length_append]; omega)]
    rw [take_append_exact (e.path.flatMap enc16) _ (e.path.length * 2)
      (by rw [length_flatMap_enc16]; omega)]
    rw [decPath_enc16 e.path h2]
    rw [take_append_exact e.pixels _ (e.width * e.height * 4) h6]
    rw [drop_append_exact e.pixels _ (e.width * e.height * 4) h6]
    rw [ih (fun e2 he2 => hwf e2 (List.mem_cons_of_mem e he2))]

/-- C5: saving `N` well-formed thumbnails and reloading the produced file
yields exactly the saved records — every path with its exact width, height
and byte-identical pixel data; and corrupting the 4-byte magic makes the
loader return an empty index without parsing any entry. -/
theorem c5_persistence_roundtrip :
    (∀ es : List ThumbRecord, es.length < 4294967296 →
      (∀ e ∈ es, wfRecord e) → loadThumbs (serThumbs es) = es)
    ∧ (∀ bs : List Nat, bs.take 4 ≠ magicUIVT → loadThumbs bs = []) := by
  constructor
  · intro es hlen hwf
    have hhdr : serThumbs es
        = 85 :: 73 :: 86 :: 84 :: 1 :: 0 :: 0 :: 0
          :: (es.length % 4294967296 % 256)
          :: (es.length % 4294967296 / 256 % 256)
          :: (es.length % 4294967296 / 65536 % 256)
          :: (es.length % 4294967296 / 16777216 % 256)
          :: 0 :: 0 :: 0 :: 0 :: 0 :: 0 :: 0 :: 0 :: 0 :: 0
          :: 0 :: 0 :: 0 :: 0 :: 0 :: 0 :: 0 :: 0 :: 0 :: 0
          :: es.flatMap serEntry := by
      simp [serThumbs, magicUIVT, enc32, List.replicate]
    rw [hhdr]
    unfold loadThumbs
    rw [if_neg (by simp)]
    rw [if_neg (by simp [magicUIVT])]
    rw [if_neg (by
      simp only [List.getD_cons_succ, List.getD_cons_zero]
      simp [dec32])]
    have hcnt : dec32 (es.length % 4294967296 % 256)
        (es.length % 4294967296 / 256 % 256)
        (es.length % 4294967296 / 65536 % 256)
        (es.length % 4294967296 / 16777216 % 256) = es.length := by
      rw [Nat.mod_eq_of_lt hlen]
      exact dec32_enc32 es.length hlen
    simp only [List.getD_cons_succ, List.getD_cons_zero, List.drop_succ_cons,
      List.drop_zero]
    rw [hcnt]
    exact parseEntries_roundtrip es hwf
  · intro bs hm
    unfold loadThumbs
    split
    · rfl
    · rfl

instance wfRecord_dec (e : ThumbRecord) : Decidable (wfRecord e) := by
  unfold wfRecord
  infer_instance

/-- Witness for C5: a concrete 1x2 thumbnail round-trips byte-identically,
and flipping the first magic byte to 99 makes the loader return empty. -/
theorem c5_witness :
    loadThumbs (serThumbs [⟨wstr "p", 1, 2, [1, 2, 3, 4, 5, 6, 7, 8]⟩])
      = [⟨wstr "p", 1, 2, [1, 2, 3, 4, 5, 6, 7, 8]⟩]
    ∧ loadThumbs
        (99 :: (serThumbs [⟨wstr "p", 1, 2, [1, 2, 3, 4, 5, 6, 7, 8]⟩]).tail)
      = [] := by
  constructor
  · exact c5_persistence_roundtrip.1 [⟨wstr "p", 1, 2, [1, 2, 3, 4, 5, 6, 7, 8]⟩]
      (by decide) (by decide)
  · exact c5_persistence_roundtrip.2
      (99 :: (serThumbs [⟨wstr "p", 1, 2, [1, 2, 3, 4, 5, 6, 7, 8]⟩]).tail)
      (by decide)

end UIVProof
